import Mathlib

/-!
Verification of the exact Riemann solver for the LWR traffic model with a
variable speed limit (`exact_solvers/traffic_variable_speed.py`).

The solver is a pure case-based classifier over the four real inputs
`(q_l, q_r, v_l, v_r)`.  We embed it shallowly over `ℝ`: the flux `f`,
the characteristic speed `c`, one constructor per branch of the `if/elif`
chain (mirroring the source line by line, with the vectorized numpy
indicator arithmetic rendered pointwise via `ind`), and the dispatching
function `exact_riemann_solution` returning `Except` to model the final
`raise`.
-/

namespace Traffic

/-- Flux `f = lambda q, v: v*q*(1-q)` from the source. -/
noncomputable def f (q v : ℝ) : ℝ := v * q * (1 - q)

/-- Characteristic speed `c = lambda q, v: v*(1.-2.*q)` from the source. -/
noncomputable def c (q v : ℝ) : ℝ := v * (1 - 2 * q)

/-- Indicator of a proposition, modelling numpy boolean-mask arithmetic
`(xi<=s)*q` pointwise. -/
noncomputable def ind (p : Prop) [Decidable p] : ℝ := if p then 1 else 0

/-- Wave-type tags used in the `wave_types` output list. -/
inductive WaveType
  | shock
  | contact
  | raref
deriving DecidableEq

/-- An entry of the `speeds` output list: a scalar speed for a shock or
contact, or a pair `(lo, hi)` for a rarefaction fan. -/
inductive Speed
  | pt (s : ℝ)
  | iv (lo hi : ℝ)

/-- The tuple returned by `exact_riemann_solution`:
`(states, speeds, reval, wave_types)`. -/
structure RSolution where
  states : List ℝ
  speeds : List Speed
  wave_types : List WaveType
  reval : ℝ → ℝ

/-- The failure value of the final `else` arm (`print(f_l, f_r)` followed by
`raise Exception('Unhandled state!')`): it surfaces the two computed fluxes. -/
structure UnclassifiedStateError where
  f_l : ℝ
  f_r : ℝ

/-- Branch `f_r == f_l`: contact-only solution. -/
noncomputable def branch0 (q_l q_r : ℝ) : RSolution :=
  { states := [q_l, q_r]
    speeds := [.pt 0]
    wave_types := [.contact]
    reval := fun _ => q_l }

/-- Branch comment `Left-going shock (1)` in the source
(guard `f_r < f_l and q_r > 0.5`). -/
noncomputable def branch1 (q_l q_r v_l v_r : ℝ) : RSolution :=
  let q_star := (1 + Real.sqrt (1 - 4 * f q_r v_r / v_l)) / 2
  let shock_speed := (f q_r v_r - f q_l v_l) / (q_star - q_l)
  { states := [q_l, q_star, q_r]
    speeds := [.pt shock_speed, .pt 0]
    wave_types := [.shock, .contact]
    reval := fun ξ =>
      ind (ξ ≤ shock_speed) * q_l
        + ind (shock_speed < ξ) * ind (ξ ≤ 0) * q_star
        + ind (0 ≤ ξ) * q_r }

/-- Branch comment `Right-going shock (2)` in the source
(guard `f_r > f_l and q_l < 0.5`). -/
noncomputable def branch2 (q_l q_r v_l v_r : ℝ) : RSolution :=
  let q_star := (1 - Real.sqrt (1 - 4 * f q_l v_l / v_r)) / 2
  let shock_speed := (f q_r v_r - f q_l v_l) / (q_r - q_star)
  { states := [q_l, q_star, q_r]
    speeds := [.pt 0, .pt shock_speed]
    wave_types := [.contact, .shock]
    reval := fun ξ =>
      ind (ξ ≤ 0) * q_l
        + ind (0 < ξ) * ind (ξ ≤ shock_speed) * q_star
        + ind (shock_speed ≤ ξ) * q_r }

/-- Branch comment `Left-going shock and right-going rarefaction (3)`
(guard `f_l > v_r/4 and q_r <= 0.5`). -/
noncomputable def branch3 (q_l q_r v_l v_r : ℝ) : RSolution :=
  let q_star := (1 + Real.sqrt (1 - v_r / v_l)) / 2
  let shock_speed := -(f q_l v_l - v_r / 4) / (q_star - q_l)
  { states := [q_l, q_star, 1 / 2, q_r]
    speeds := [.pt shock_speed, .pt 0, .iv 0 (c q_r v_r)]
    wave_types := [.shock, .contact, .raref]
    reval := fun ξ =>
      ind (ξ ≤ shock_speed) * q_l
        + ind (shock_speed < ξ) * ind (ξ ≤ 0) * q_star
        + ind (0 < ξ) * ind (ξ < c q_r v_r) * ((1 - ξ / v_r) / 2)
        + ind (c q_r v_r ≤ ξ) * q_r }

/-- Branch comment `Left-going rarefaction and right-going shock (4)`
(guard `f_r > v_l/4 and q_l >= 0.5`). -/
noncomputable def branch4 (q_l q_r v_l v_r : ℝ) : RSolution :=
  let q_star := (1 - Real.sqrt (1 - v_l / v_r)) / 2
  let shock_speed := (f q_r v_r - v_l / 4) / (q_r - q_star)
  { states := [q_l, 1 / 2, q_star, q_r]
    speeds := [.iv (c q_l v_l) 0, .pt 0, .pt shock_speed]
    wave_types := [.raref, .contact, .shock]
    reval := fun ξ =>
      ind (ξ ≤ c q_l v_l) * q_l
        + ind (c q_l v_l < ξ) * ind (ξ ≤ 0) * ((1 - ξ / v_l) / 2)
        + ind (0 < ξ) * ind (ξ ≤ shock_speed) * q_star
        + ind (shock_speed < ξ) * q_r }

/-- Branch comment `Left-going rarefaction (6)`
(guard `f_l < f_r <= v_l/4 and q_l > 0.5 and q_r >= 0.5`). -/
noncomputable def branch6 (q_l q_r v_l v_r : ℝ) : RSolution :=
  let q_star := (1 + Real.sqrt (1 - 4 * f q_r v_r / v_l)) / 2
  let c_star := c q_star v_l
  { states := [q_l, q_star, q_r]
    speeds := [.iv (c q_l v_l) c_star, .pt 0]
    wave_types := [.raref, .contact]
    reval := fun ξ =>
      ind (ξ ≤ c q_l v_l) * q_l
        + ind (c q_l v_l < ξ) * ind (ξ ≤ c_star) * ((1 - ξ / v_l) / 2)
        + ind (c_star < ξ) * ind (ξ ≤ 0) * q_star
        + ind (0 ≤ ξ) * q_r }

/-- Branch comment `Right-going rarefaction (7)`
(guard `f_r < f_l <= v_r/4 and q_l <= 0.5 and q_r < 0.5`). -/
noncomputable def branch7 (q_l q_r v_l v_r : ℝ) : RSolution :=
  let q_star := (1 - Real.sqrt (1 - 4 * f q_l v_l / v_r)) / 2
  let c_star := c q_star v_r
  { states := [q_l, q_star, q_r]
    speeds := [.pt 0, .iv c_star (c q_r v_r)]
    wave_types := [.contact, .raref]
    reval := fun ξ =>
      ind (ξ ≤ 0) * q_l
        + ind (0 < ξ) * ind (ξ ≤ c_star) * q_star
        + ind (c_star < ξ) * ind (ξ ≤ c q_r v_r) * ((1 - ξ / v_r) / 2)
        + ind (c q_r v_r ≤ ξ) * q_r }

/-- Transonic sub-branch `q* on left side (5a)` (`v_r < v_l`). -/
noncomputable def branch5a (q_l q_r v_l v_r : ℝ) : RSolution :=
  let q_star := (1 + Real.sqrt (1 - v_r / v_l)) / 2
  let c_star := c q_star v_l
  { states := [q_l, q_star, 1 / 2, q_r]
    speeds := [.iv (c q_l v_l) c_star, .pt 0, .iv 0 (c q_r v_r)]
    wave_types := [.raref, .contact, .raref]
    reval := fun ξ =>
      ind (ξ ≤ c q_l v_l) * q_l
        + ind (c q_l v_l < ξ) * ind (ξ ≤ c_star) * ((1 - ξ / v_l) / 2)
        + ind (c_star < ξ) * ind (ξ ≤ 0) * q_star
        + ind (0 < ξ) * ind (ξ ≤ c q_r v_r) * ((1 - ξ / v_r) / 2)
        + ind (c q_r v_r < ξ) * q_r }

/-- Transonic sub-branch `q* on right side (5b)` (`v_r > v_l`). -/
noncomputable def branch5b (q_l q_r v_l v_r : ℝ) : RSolution :=
  let q_star := (1 - Real.sqrt (1 - v_l / v_r)) / 2
  let c_star := c q_star v_r
  { states := [q_l, 1 / 2, q_star, q_r]
    speeds := [.iv (c q_l v_l) 0, .pt 0, .iv c_star (c q_r v_r)]
    wave_types := [.raref, .contact, .raref]
    reval := fun ξ =>
      ind (ξ ≤ c q_l v_l) * q_l
        + ind (c q_l v_l < ξ) * ind (ξ ≤ 0) * ((1 - ξ / v_l) / 2)
        + ind (0 < ξ) * ind (ξ ≤ c_star) * q_star
        + ind (c_star < ξ) * ind (ξ ≤ c q_r v_r) * ((1 - ξ / v_r) / 2)
        + ind (c q_r v_r < ξ) * q_r }

/-- Transonic sub-branch `v_r == v_l`: a single rarefaction. -/
noncomputable def branch5c (q_l q_r v_l v_r : ℝ) : RSolution :=
  { states := [q_l, q_r]
    speeds := [.iv (c q_l v_l) (c q_r v_r)]
    wave_types := [.raref]
    reval := fun ξ =>
      ind (ξ ≤ c q_l v_l) * q_l
        + ind (c q_l v_l < ξ) * ind (ξ ≤ c q_r v_r) * ((1 - ξ / v_l) / 2)
        + ind (c q_r v_r < ξ) * q_r }

/-- Guard of the contact-only branch. -/
abbrev G0 (q_l q_r v_l v_r : ℝ) : Prop := f q_r v_r = f q_l v_l

/-- Guard of branch (1). -/
abbrev G1 (q_l q_r v_l v_r : ℝ) : Prop := f q_r v_r < f q_l v_l ∧ 1 / 2 < q_r

/-- Guard of branch (2). -/
abbrev G2 (q_l q_r v_l v_r : ℝ) : Prop := f q_l v_l < f q_r v_r ∧ q_l < 1 / 2

/-- Guard of branch (3). -/
abbrev G3 (q_l q_r v_l v_r : ℝ) : Prop := v_r / 4 < f q_l v_l ∧ q_r ≤ 1 / 2

/-- Guard of branch (4). -/
abbrev G4 (q_l q_r v_l v_r : ℝ) : Prop := v_l / 4 < f q_r v_r ∧ 1 / 2 ≤ q_l

/-- Guard of branch (6). -/
abbrev G6 (q_l q_r v_l v_r : ℝ) : Prop :=
  (f q_l v_l < f q_r v_r ∧ f q_r v_r ≤ v_l / 4) ∧ 1 / 2 < q_l ∧ 1 / 2 ≤ q_r

/-- Guard of branch (7). -/
abbrev G7 (q_l q_r v_l v_r : ℝ) : Prop :=
  (f q_r v_r < f q_l v_l ∧ f q_l v_l ≤ v_r / 4) ∧ q_l ≤ 1 / 2 ∧ q_r < 1 / 2

/-- Guard of the transonic branch (5). -/
abbrev G8 (q_l q_r v_l v_r : ℝ) : Prop :=
  1 / 2 ≤ q_l ∧ q_r ≤ 1 / 2 ∧ f q_l v_l ≤ v_r / 4 ∧ f q_r v_r ≤ v_l / 4

/-- The `if/elif` chain of `exact_riemann_solution`, in source order.  The
final `else` (`raise Exception`) is the `Except.error` arm. -/
noncomputable def exact_riemann_solution (q_l q_r v_l v_r : ℝ) :
    Except UnclassifiedStateError RSolution :=
  if G0 q_l q_r v_l v_r then .ok (branch0 q_l q_r)
  else if G1 q_l q_r v_l v_r then .ok (branch1 q_l q_r v_l v_r)
  else if G2 q_l q_r v_l v_r then .ok (branch2 q_l q_r v_l v_r)
  else if G3 q_l q_r v_l v_r then .ok (branch3 q_l q_r v_l v_r)
  else if G4 q_l q_r v_l v_r then .ok (branch4 q_l q_r v_l v_r)
  else if G6 q_l q_r v_l v_r then
    .ok (branch6 q_l q_r v_l v_r)
  else if G7 q_l q_r v_l v_r then
    .ok (branch7 q_l q_r v_l v_r)
  else if G8 q_l q_r v_l v_r then
    if v_r < v_l then .ok (branch5a q_l q_r v_l v_r)
    else if v_l < v_r then .ok (branch5b q_l q_r v_l v_r)
    else .ok (branch5c q_l q_r v_l v_r)
  else .error ⟨f q_l v_l, f q_r v_r⟩

/-- The `states` component of a solver result (`[]` on error). -/
noncomputable def statesOf (r : Except UnclassifiedStateError RSolution) : List ℝ :=
  match r with
  | .ok s => s.states
  | .error _ => []

/-- The `speeds` component of a solver result (`[]` on error). -/
noncomputable def speedsOf (r : Except UnclassifiedStateError RSolution) : List Speed :=
  match r with
  | .ok s => s.speeds
  | .error _ => []

/-- The `wave_types` component of a solver result (`[]` on error). -/
noncomputable def typesOf (r : Except UnclassifiedStateError RSolution) : List WaveType :=
  match r with
  | .ok s => s.wave_types
  | .error _ => []

/-- Evaluate the `reval` closure of a solver result at one point. -/
noncomputable def evalAt (r : Except UnclassifiedStateError RSolution) (ξ : ℝ) : ℝ :=
  match r with
  | .ok s => s.reval ξ
  | .error _ => 0

theorem ind_pos {p : Prop} [Decidable p] (h : p) : ind p = 1 := if_pos h

theorem ind_neg {p : Prop} [Decidable p] (h : ¬p) : ind p = 0 := if_neg h

/-- The parabola `q*(1-q)` is at most `1/4` for every real `q`. -/
theorem qq_le_quarter (q : ℝ) : q * (1 - q) ≤ 1 / 4 := by nlinarith [sq_nonneg (q - 1 / 2)]

/-- Under a positive speed limit the flux is at most `v/4`. -/
theorem f_le_quarter {v : ℝ} (q : ℝ) (hv : 0 < v) : f q v ≤ v / 4 := by
  have h := mul_le_mul_of_nonneg_left (qq_le_quarter q) hv.le
  unfold f
  nlinarith

/-- The flux at the critical density `1/2` is exactly `v/4`. -/
theorem f_half (v : ℝ) : f (1 / 2) v = v / 4 := by unfold f; ring

/-- The flux is nonnegative on physical densities. -/
theorem f_nonneg {q v : ℝ} (h0 : 0 ≤ q) (h1 : q ≤ 1) (hv : 0 < v) : 0 ≤ f q v := by
  unfold f
  exact mul_nonneg (mul_nonneg hv.le h0) (by linarith)

/-- The guards of the `if/elif` chain cover all real inputs: the final
`else` arm (the `raise`) is unreachable, over exact real arithmetic, for
every `(q_l, q_r, v_l, v_r)` whatsoever. -/
theorem guards_exhaustive (q_l q_r v_l v_r : ℝ)
    (h0 : ¬ f q_r v_r = f q_l v_l)
    (h1 : ¬(f q_r v_r < f q_l v_l ∧ 1 / 2 < q_r))
    (h2 : ¬(f q_l v_l < f q_r v_r ∧ q_l < 1 / 2))
    (h3 : ¬(v_r / 4 < f q_l v_l ∧ q_r ≤ 1 / 2))
    (h4 : ¬(v_l / 4 < f q_r v_r ∧ 1 / 2 ≤ q_l))
    (h6 : ¬((f q_l v_l < f q_r v_r ∧ f q_r v_r ≤ v_l / 4) ∧ 1 / 2 < q_l ∧ 1 / 2 ≤ q_r))
    (h7 : ¬((f q_r v_r < f q_l v_l ∧ f q_l v_l ≤ v_r / 4) ∧ q_l ≤ 1 / 2 ∧ q_r < 1 / 2))
    (h8 : ¬(1 / 2 ≤ q_l ∧ q_r ≤ 1 / 2 ∧ f q_l v_l ≤ v_r / 4 ∧ f q_r v_r ≤ v_l / 4)) :
    False := by
  push_neg at h1 h2 h3 h4 h6 h7 h8
  rcases lt_trichotomy (f q_r v_r) (f q_l v_l) with hlt | heq | hgt
  · have hqr : q_r ≤ 1 / 2 := h1 hlt
    have hfl : f q_l v_l ≤ v_r / 4 := by
      by_contra hc
      push_neg at hc
      exact absurd (h3 hc) (not_lt.mpr hqr)
    rcases le_or_lt q_l (1 / 2) with hql | hql
    · have hqr2 : 1 / 2 ≤ q_r := h7 ⟨hlt, hfl⟩ hql
      have hq : q_r = 1 / 2 := le_antisymm hqr hqr2
      rw [hq, f_half] at hlt
      linarith
    · have hfr : v_l / 4 < f q_r v_r := h8 hql.le hqr hfl
      have := h4 hfr
      linarith
  · exact h0 heq
  · have hql : 1 / 2 ≤ q_l := h2 hgt
    have hfr : f q_r v_r ≤ v_l / 4 := by
      by_contra hc
      push_neg at hc
      have := h4 hc
      linarith
    rcases eq_or_lt_of_le hql with hq | hql'
    · rw [← hq, f_half] at hgt
      linarith
    · have hqr : q_r < 1 / 2 := h6 ⟨hgt, hfr⟩ hql'
      have hfl : f q_l v_l ≤ v_r / 4 := by
        by_contra hc
        push_neg at hc
        have := h3 hc
        linarith
      have := h8 hql hqr.le hfl
      linarith

theorem solve_eq0 {q_l q_r v_l v_r : ℝ} (h0 : G0 q_l q_r v_l v_r) :
    exact_riemann_solution q_l q_r v_l v_r = .ok (branch0 q_l q_r) := by
  unfold exact_riemann_solution
  rw [if_pos h0]

theorem solve_eq1 {q_l q_r v_l v_r : ℝ} (h0 : ¬G0 q_l q_r v_l v_r)
    (h1 : G1 q_l q_r v_l v_r) :
    exact_riemann_solution q_l q_r v_l v_r = .ok (branch1 q_l q_r v_l v_r) := by
  unfold exact_riemann_solution
  rw [if_neg h0, if_pos h1]

theorem solve_eq2 {q_l q_r v_l v_r : ℝ} (h0 : ¬G0 q_l q_r v_l v_r)
    (h1 : ¬G1 q_l q_r v_l v_r) (h2 : G2 q_l q_r v_l v_r) :
    exact_riemann_solution q_l q_r v_l v_r = .ok (branch2 q_l q_r v_l v_r) := by
  unfold exact_riemann_solution
  rw [if_neg h0, if_neg h1, if_pos h2]

theorem solve_eq3 {q_l q_r v_l v_r : ℝ} (h0 : ¬G0 q_l q_r v_l v_r)
    (h1 : ¬G1 q_l q_r v_l v_r) (h2 : ¬G2 q_l q_r v_l v_r) (h3 : G3 q_l q_r v_l v_r) :
    exact_riemann_solution q_l q_r v_l v_r = .ok (branch3 q_l q_r v_l v_r) := by
  unfold exact_riemann_solution
  rw [if_neg h0, if_neg h1, if_neg h2, if_pos h3]

theorem solve_eq4 {q_l q_r v_l v_r : ℝ} (h0 : ¬G0 q_l q_r v_l v_r)
    (h1 : ¬G1 q_l q_r v_l v_r) (h2 : ¬G2 q_l q_r v_l v_r) (h3 : ¬G3 q_l q_r v_l v_r)
    (h4 : G4 q_l q_r v_l v_r) :
    exact_riemann_solution q_l q_r v_l v_r = .ok (branch4 q_l q_r v_l v_r) := by
  unfold exact_riemann_solution
  rw [if_neg h0, if_neg h1, if_neg h2, if_neg h3, if_pos h4]

theorem solve_eq6 {q_l q_r v_l v_r : ℝ} (h0 : ¬G0 q_l q_r v_l v_r)
    (h1 : ¬G1 q_l q_r v_l v_r) (h2 : ¬G2 q_l q_r v_l v_r) (h3 : ¬G3 q_l q_r v_l v_r)
    (h4 : ¬G4 q_l q_r v_l v_r) (h6 : G6 q_l q_r v_l v_r) :
    exact_riemann_solution q_l q_r v_l v_r = .ok (branch6 q_l q_r v_l v_r) := by
  unfold exact_riemann_solution
  rw [if_neg h0, if_neg h1, if_neg h2, if_neg h3, if_neg h4, if_pos h6]

theorem solve_eq7 {q_l q_r v_l v_r : ℝ} (h0 : ¬G0 q_l q_r v_l v_r)
    (h1 : ¬G1 q_l q_r v_l v_r) (h2 : ¬G2 q_l q_r v_l v_r) (h3 : ¬G3 q_l q_r v_l v_r)
    (h4 : ¬G4 q_l q_r v_l v_r) (h6 : ¬G6 q_l q_r v_l v_r) (h7 : G7 q_l q_r v_l v_r) :
    exact_riemann_solution q_l q_r v_l v_r = .ok (branch7 q_l q_r v_l v_r) := by
  unfold exact_riemann_solution
  rw [if_neg h0, if_neg h1, if_neg h2, if_neg h3, if_neg h4, if_neg h6, if_pos h7]

theorem solve_eq5a {q_l q_r v_l v_r : ℝ} (h0 : ¬G0 q_l q_r v_l v_r)
    (h1 : ¬G1 q_l q_r v_l v_r) (h2 : ¬G2 q_l q_r v_l v_r) (h3 : ¬G3 q_l q_r v_l v_r)
    (h4 : ¬G4 q_l q_r v_l v_r) (h6 : ¬G6 q_l q_r v_l v_r) (h7 : ¬G7 q_l q_r v_l v_r)
    (h8 : G8 q_l q_r v_l v_r) (ha : v_r < v_l) :
    exact_riemann_solution q_l q_r v_l v_r = .ok (branch5a q_l q_r v_l v_r) := by
  unfold exact_riemann_solution
  rw [if_neg h0, if_neg h1, if_neg h2, if_neg h3, if_neg h4, if_neg h6, if_neg h7,
    if_pos h8, if_pos ha]

theorem solve_eq5b {q_l q_r v_l v_r : ℝ} (h0 : ¬G0 q_l q_r v_l v_r)
    (h1 : ¬G1 q_l q_r v_l v_r) (h2 : ¬G2 q_l q_r v_l v_r) (h3 : ¬G3 q_l q_r v_l v_r)
    (h4 : ¬G4 q_l q_r v_l v_r) (h6 : ¬G6 q_l q_r v_l v_r) (h7 : ¬G7 q_l q_r v_l v_r)
    (h8 : G8 q_l q_r v_l v_r) (ha : ¬v_r < v_l) (hb : v_l < v_r) :
    exact_riemann_solution q_l q_r v_l v_r = .ok (branch5b q_l q_r v_l v_r) := by
  unfold exact_riemann_solution
  rw [if_neg h0, if_neg h1, if_neg h2, if_neg h3, if_neg h4, if_neg h6, if_neg h7,
    if_pos h8, if_neg ha, if_pos hb]

theorem solve_eq5c {q_l q_r v_l v_r : ℝ} (h0 : ¬G0 q_l q_r v_l v_r)
    (h1 : ¬G1 q_l q_r v_l v_r) (h2 : ¬G2 q_l q_r v_l v_r) (h3 : ¬G3 q_l q_r v_l v_r)
    (h4 : ¬G4 q_l q_r v_l v_r) (h6 : ¬G6 q_l q_r v_l v_r) (h7 : ¬G7 q_l q_r v_l v_r)
    (h8 : G8 q_l q_r v_l v_r) (ha : ¬v_r < v_l) (hb : ¬v_l < v_r) :
    exact_riemann_solution q_l q_r v_l v_r = .ok (branch5c q_l q_r v_l v_r) := by
  unfold exact_riemann_solution
  rw [if_neg h0, if_neg h1, if_neg h2, if_neg h3, if_neg h4, if_neg h6, if_neg h7,
    if_pos h8, if_neg ha, if_neg hb]

/-- Case analysis on the solver: exactly one of the ten branches fires,
together with its guard. -/
theorem solve_branches (q_l q_r v_l v_r : ℝ) :
    (f q_r v_r = f q_l v_l ∧
      exact_riemann_solution q_l q_r v_l v_r = .ok (branch0 q_l q_r)) ∨
    ((f q_r v_r < f q_l v_l ∧ 1 / 2 < q_r) ∧
      exact_riemann_solution q_l q_r v_l v_r = .ok (branch1 q_l q_r v_l v_r)) ∨
    ((f q_l v_l < f q_r v_r ∧ q_l < 1 / 2) ∧
      exact_riemann_solution q_l q_r v_l v_r = .ok (branch2 q_l q_r v_l v_r)) ∨
    ((v_r / 4 < f q_l v_l ∧ q_r ≤ 1 / 2) ∧
      exact_riemann_solution q_l q_r v_l v_r = .ok (branch3 q_l q_r v_l v_r)) ∨
    ((v_l / 4 < f q_r v_r ∧ 1 / 2 ≤ q_l) ∧
      exact_riemann_solution q_l q_r v_l v_r = .ok (branch4 q_l q_r v_l v_r)) ∨
    (((f q_l v_l < f q_r v_r ∧ f q_r v_r ≤ v_l / 4) ∧ 1 / 2 < q_l ∧ 1 / 2 ≤ q_r) ∧
      exact_riemann_solution q_l q_r v_l v_r = .ok (branch6 q_l q_r v_l v_r)) ∨
    (((f q_r v_r < f q_l v_l ∧ f q_l v_l ≤ v_r / 4) ∧ q_l ≤ 1 / 2 ∧ q_r < 1 / 2) ∧
      exact_riemann_solution q_l q_r v_l v_r = .ok (branch7 q_l q_r v_l v_r)) ∨
    ((1 / 2 ≤ q_l ∧ q_r ≤ 1 / 2 ∧ f q_l v_l ≤ v_r / 4 ∧ f q_r v_r ≤ v_l / 4) ∧ v_r < v_l ∧
      exact_riemann_solution q_l q_r v_l v_r = .ok (branch5a q_l q_r v_l v_r)) ∨
    ((1 / 2 ≤ q_l ∧ q_r ≤ 1 / 2 ∧ f q_l v_l ≤ v_r / 4 ∧ f q_r v_r ≤ v_l / 4) ∧ v_l < v_r ∧
      exact_riemann_solution q_l q_r v_l v_r = .ok (branch5b q_l q_r v_l v_r)) ∨
    ((1 / 2 ≤ q_l ∧ q_r ≤ 1 / 2 ∧ f q_l v_l ≤ v_r / 4 ∧ f q_r v_r ≤ v_l / 4) ∧ v_l = v_r ∧
      exact_riemann_solution q_l q_r v_l v_r = .ok (branch5c q_l q_r v_l v_r)) := by
  by_cases h0 : G0 q_l q_r v_l v_r
  · exact Or.inl ⟨h0, solve_eq0 h0⟩
  by_cases h1 : G1 q_l q_r v_l v_r
  · exact Or.inr (Or.inl ⟨h1, solve_eq1 h0 h1⟩)
  by_cases h2 : G2 q_l q_r v_l v_r
  · exact Or.inr (Or.inr (Or.inl ⟨h2, solve_eq2 h0 h1 h2⟩))
  by_cases h3 : G3 q_l q_r v_l v_r
  · exact Or.inr (Or.inr (Or.inr (Or.inl ⟨h3, solve_eq3 h0 h1 h2 h3⟩)))
  by_cases h4 : G4 q_l q_r v_l v_r
  · exact Or.inr (Or.inr (Or.inr (Or.inr (Or.inl ⟨h4, solve_eq4 h0 h1 h2 h3 h4⟩))))
  by_cases h6 : G6 q_l q_r v_l v_r
  · exact Or.inr (Or.inr (Or.inr (Or.inr (Or.inr (Or.inl ⟨h6, solve_eq6 h0 h1 h2 h3 h4 h6⟩)))))
  by_cases h7 : G7 q_l q_r v_l v_r
  · exact Or.inr (Or.inr (Or.inr (Or.inr (Or.inr (Or.inr (Or.inl
      ⟨h7, solve_eq7 h0 h1 h2 h3 h4 h6 h7⟩))))))
  by_cases h8 : G8 q_l q_r v_l v_r
  · by_cases ha : v_r < v_l
    · exact Or.inr (Or.inr (Or.inr (Or.inr (Or.inr (Or.inr (Or.inr (Or.inl
        ⟨h8, ha, solve_eq5a h0 h1 h2 h3 h4 h6 h7 h8 ha⟩)))))))
    by_cases hb : v_l < v_r
    · exact Or.inr (Or.inr (Or.inr (Or.inr (Or.inr (Or.inr (Or.inr (Or.inr (Or.inl
        ⟨h8, hb, solve_eq5b h0 h1 h2 h3 h4 h6 h7 h8 ha hb⟩))))))))
    · exact Or.inr (Or.inr (Or.inr (Or.inr (Or.inr (Or.inr (Or.inr (Or.inr (Or.inr
        ⟨h8, le_antisymm (not_lt.mp ha) (not_lt.mp hb),
          solve_eq5c h0 h1 h2 h3 h4 h6 h7 h8 ha hb⟩))))))))
  · exact absurd (guards_exhaustive q_l q_r v_l v_r h0 h1 h2 h3 h4 h6 h7 h8) id

/-- The upper intermediate state `(1+sqrt(1-4a/v))/2` has flux exactly `a`
on the `v`-parabola, provided the root argument is nonnegative. -/
theorem qstar_up_f (v a : ℝ) (hv : 0 < v) (ha : a ≤ v / 4) :
    f ((1 + Real.sqrt (1 - 4 * a / v)) / 2) v = a := by
  have h1 : 4 * a / v ≤ 1 := by rw [div_le_one hv]; linarith
  have harg : 0 ≤ 1 - 4 * a / v := by linarith
  have hs : Real.sqrt (1 - 4 * a / v) ^ 2 = 1 - 4 * a / v := Real.sq_sqrt harg
  have hv' : v ≠ 0 := ne_of_gt hv
  unfold f
  have hexp : v * ((1 + Real.sqrt (1 - 4 * a / v)) / 2) *
      (1 - (1 + Real.sqrt (1 - 4 * a / v)) / 2) =
      v * (1 - Real.sqrt (1 - 4 * a / v) ^ 2) / 4 := by ring
  rw [hexp, hs]
  field_simp

/-- The lower intermediate state `(1-sqrt(1-4a/v))/2` has flux exactly `a`
on the `v`-parabola, provided the root argument is nonnegative. -/
theorem qstar_dn_f (v a : ℝ) (hv : 0 < v) (ha : a ≤ v / 4) :
    f ((1 - Real.sqrt (1 - 4 * a / v)) / 2) v = a := by
  have h1 : 4 * a / v ≤ 1 := by rw [div_le_one hv]; linarith
  have harg : 0 ≤ 1 - 4 * a / v := by linarith
  have hs : Real.sqrt (1 - 4 * a / v) ^ 2 = 1 - 4 * a / v := Real.sq_sqrt harg
  have hv' : v ≠ 0 := ne_of_gt hv
  unfold f
  have hexp : v * ((1 - Real.sqrt (1 - 4 * a / v)) / 2) *
      (1 - (1 - Real.sqrt (1 - 4 * a / v)) / 2) =
      v * (1 - Real.sqrt (1 - 4 * a / v) ^ 2) / 4 := by ring
  rw [hexp, hs]
  field_simp

/-- If the target flux `a` is strictly below the flux of `q`, the upper
intermediate state lies strictly to the right of `q`. -/
theorem qstar_up_gt (v a q : ℝ) (hv : 0 < v) (h : a < f q v) :
    q < (1 + Real.sqrt (1 - 4 * a / v)) / 2 := by
  have ha4 : a < v / 4 := lt_of_lt_of_le h (f_le_quarter q hv)
  have harg : 0 < 1 - 4 * a / v := by
    have : 4 * a / v < 1 := by rw [div_lt_one hv]; linarith
    linarith
  have hspos : 0 < Real.sqrt (1 - 4 * a / v) := Real.sqrt_pos.mpr harg
  have hfs : f ((1 + Real.sqrt (1 - 4 * a / v)) / 2) v = a := qstar_up_f v a hv ha4.le
  by_contra hc
  push_neg at hc
  have h1 : (1 : ℝ) / 2 < (1 + Real.sqrt (1 - 4 * a / v)) / 2 := by linarith
  have key : 0 ≤ v * (q - (1 + Real.sqrt (1 - 4 * a / v)) / 2) *
      (q + (1 + Real.sqrt (1 - 4 * a / v)) / 2 - 1) :=
    mul_nonneg (mul_nonneg hv.le (by linarith)) (by linarith)
  have hle : f q v ≤ a := by
    unfold f at hfs ⊢
    nlinarith [key, hfs]
  linarith

/-- If the target flux `a` is strictly below the flux of `q`, the lower
intermediate state lies strictly to the left of `q`. -/
theorem qstar_dn_lt (v a q : ℝ) (hv : 0 < v) (h : a < f q v) :
    (1 - Real.sqrt (1 - 4 * a / v)) / 2 < q := by
  have ha4 : a < v / 4 := lt_of_lt_of_le h (f_le_quarter q hv)
  have harg : 0 < 1 - 4 * a / v := by
    have : 4 * a / v < 1 := by rw [div_lt_one hv]; linarith
    linarith
  have hspos : 0 < Real.sqrt (1 - 4 * a / v) := Real.sqrt_pos.mpr harg
  have hfs : f ((1 - Real.sqrt (1 - 4 * a / v)) / 2) v = a := qstar_dn_f v a hv ha4.le
  by_contra hc
  push_neg at hc
  have h1 : (1 - Real.sqrt (1 - 4 * a / v)) / 2 < 1 / 2 := by linarith
  have key : 0 ≤ v * ((1 - Real.sqrt (1 - 4 * a / v)) / 2 - q) *
      (1 - q - (1 - Real.sqrt (1 - 4 * a / v)) / 2) :=
    mul_nonneg (mul_nonneg hv.le (by linarith)) (by linarith)
  have hle : f q v ≤ a := by
    unfold f at hfs ⊢
    nlinarith [key, hfs]
  linarith

/-- C8: for every valid input on which `exact_riemann_solution` returns, the
returned states sequence begins with `q_l` and ends with `q_r`. -/
theorem claim_c8_states_endpoints (q_l q_r v_l v_r : ℝ)
    (hql0 : 0 ≤ q_l) (hql1 : q_l ≤ 1) (hqr0 : 0 ≤ q_r) (hqr1 : q_r ≤ 1)
    (hvl : 0 < v_l) (hvr : 0 < v_r)
    (sol : RSolution) (h : exact_riemann_solution q_l q_r v_l v_r = .ok sol) :
    sol.states.head? = some q_l ∧ sol.states.getLast? = some q_r := by
  rcases solve_branches q_l q_r v_l v_r with
    ⟨_, hs⟩ | ⟨_, hs⟩ | ⟨_, hs⟩ | ⟨_, hs⟩ | ⟨_, hs⟩ | ⟨_, hs⟩ | ⟨_, hs⟩ |
    ⟨_, _, hs⟩ | ⟨_, _, hs⟩ | ⟨_, _, hs⟩ <;>
  · rw [h] at hs
    injection hs with hs
    subst hs
    exact ⟨rfl, rfl⟩

/-- Witness for C8 at the concrete valid input `(1/5, 4/5, 1, 1)`. -/
theorem claim_c8_witness :
    (statesOf (exact_riemann_solution (1/5) (4/5) 1 1)).head? = some (1/5 : ℝ) ∧
    (statesOf (exact_riemann_solution (1/5) (4/5) 1 1)).getLast? = some (4/5 : ℝ) := by
  have hsol : exact_riemann_solution (1/5) (4/5) 1 1 = .ok (branch0 (1/5) (4/5)) :=
    solve_eq0 (by norm_num [G0, f])
  have h := claim_c8_states_endpoints (1/5) (4/5) 1 1 (by norm_num) (by norm_num)
    (by norm_num) (by norm_num) (by norm_num) (by norm_num) _ hsol
  rw [hsol]
  simpa [statesOf] using h

/-- C7: whenever the two fluxes agree, the solver returns the contact-only
solution: states `[q_l, q_r]`, a single contact at speed `0`, and an
evaluator that is constantly `q_l`. -/
theorem claim_c7_equal_flux (q_l q_r v_l v_r : ℝ)
    (h : f q_l v_l = f q_r v_r) :
    statesOf (exact_riemann_solution q_l q_r v_l v_r) = [q_l, q_r] ∧
    typesOf (exact_riemann_solution q_l q_r v_l v_r) = [.contact] ∧
    speedsOf (exact_riemann_solution q_l q_r v_l v_r) = [.pt 0] ∧
    ∀ ξ : ℝ, evalAt (exact_riemann_solution q_l q_r v_l v_r) ξ = q_l := by
  have hsol : exact_riemann_solution q_l q_r v_l v_r = .ok (branch0 q_l q_r) :=
    solve_eq0 h.symm
  rw [hsol]
  exact ⟨rfl, rfl, rfl, fun ξ => rfl⟩

/-- Witness for C7 at `q_l = q_r = 1/5`, `v_l = v_r = 60`: both fluxes equal
`48/5 = 9.6` and the evaluator returns `1/5` everywhere (sampled at two
points). -/
theorem claim_c7_witness :
    f (1/5) 60 = 48/5 ∧ f (1/5) 60 = f (1/5) 60 ∧
    statesOf (exact_riemann_solution (1/5) (1/5) 60 60) = [(1/5 : ℝ), 1/5] ∧
    typesOf (exact_riemann_solution (1/5) (1/5) 60 60) = [.contact] ∧
    speedsOf (exact_riemann_solution (1/5) (1/5) 60 60) = [.pt 0] ∧
    evalAt (exact_riemann_solution (1/5) (1/5) 60 60) 37 = 1/5 ∧
    evalAt (exact_riemann_solution (1/5) (1/5) 60 60) (-3) = 1/5 := by
  have h := claim_c7_equal_flux (1/5) (1/5) 60 60 rfl
  exact ⟨by norm_num [f], rfl, h.1, h.2.1, h.2.2.1, h.2.2.2 37, h.2.2.2 (-3)⟩

/-- Counterexample to C1 as stated: the valid input
`(q_l, q_r, v_l, v_r) = (4/5, 3/10, 1, 1)` is classified by the transonic
`v_r == v_l` sub-branch, whose returned `wave_types` is `['raref']`: it
contains zero `'contact'` entries, not exactly one. -/
theorem claim_c1_counterexample :
    (exact_riemann_solution (4/5) (3/10) 1 1).isOk = true ∧
    typesOf (exact_riemann_solution (4/5) (3/10) 1 1) = [.raref] ∧
    (typesOf (exact_riemann_solution (4/5) (3/10) 1 1)).count .contact = 0 := by
  have hsol : exact_riemann_solution (4/5) (3/10) 1 1 = .ok (branch5c (4/5) (3/10) 1 1) :=
    solve_eq5c (by norm_num [G0, f]) (by norm_num [G1, f]) (by norm_num [G2, f])
      (by norm_num [G3, f]) (by norm_num [G4, f]) (by norm_num [G6, f])
      (by norm_num [G7, f]) (by norm_num [G8, f]) (by norm_num) (by norm_num)
  rw [hsol]
  exact ⟨rfl, rfl, by decide⟩

/-- C1 (amended): on every valid input on which the solver returns, the
`wave_types` list contains exactly one `'contact'`, and the speed paired
with it is the scalar `0` — except in the transonic sub-branch with
`v_l = v_r`, where the solution is the single rarefaction `['raref']`
with no contact at all. -/
theorem claim_c1_amended (q_l q_r v_l v_r : ℝ)
    (hql0 : 0 ≤ q_l) (hql1 : q_l ≤ 1) (hqr0 : 0 ≤ q_r) (hqr1 : q_r ≤ 1)
    (hvl : 0 < v_l) (hvr : 0 < v_r)
    (sol : RSolution) (h : exact_riemann_solution q_l q_r v_l v_r = .ok sol) :
    (sol.wave_types.count .contact = 1 ∧
      ∀ p ∈ sol.speeds.zip sol.wave_types, p.2 = WaveType.contact → p.1 = Speed.pt 0)
    ∨ (v_l = v_r ∧ sol.wave_types = [.raref]) := by
  rcases solve_branches q_l q_r v_l v_r with
    ⟨_, hs⟩ | ⟨_, hs⟩ | ⟨_, hs⟩ | ⟨_, hs⟩ | ⟨_, hs⟩ | ⟨_, hs⟩ | ⟨_, hs⟩ |
    ⟨_, _, hs⟩ | ⟨_, _, hs⟩ | ⟨_, hv, hs⟩ <;>
    (rw [h] at hs; injection hs with hs; subst hs)
  · refine Or.inl ⟨by rfl, ?_⟩
    intro p hp hc
    simp [branch0] at hp
    subst hp
    rfl
  · refine Or.inl ⟨by rfl, ?_⟩
    intro p hp hc
    simp [branch1] at hp
    rcases hp with rfl | rfl <;> simp_all
  · refine Or.inl ⟨by rfl, ?_⟩
    intro p hp hc
    simp [branch2] at hp
    rcases hp with rfl | rfl <;> simp_all
  · refine Or.inl ⟨by rfl, ?_⟩
    intro p hp hc
    simp [branch3] at hp
    rcases hp with rfl | rfl | rfl <;> simp_all
  · refine Or.inl ⟨by rfl, ?_⟩
    intro p hp hc
    simp [branch4] at hp
    rcases hp with rfl | rfl | rfl <;> simp_all
  · refine Or.inl ⟨by rfl, ?_⟩
    intro p hp hc
    simp [branch6] at hp
    rcases hp with rfl | rfl <;> simp_all
  · refine Or.inl ⟨by rfl, ?_⟩
    intro p hp hc
    simp [branch7] at hp
    rcases hp with rfl | rfl <;> simp_all
  · refine Or.inl ⟨by rfl, ?_⟩
    intro p hp hc
    simp [branch5a] at hp
    rcases hp with rfl | rfl | rfl <;> simp_all
  · refine Or.inl ⟨by rfl, ?_⟩
    intro p hp hc
    simp [branch5b] at hp
    rcases hp with rfl | rfl | rfl <;> simp_all
  · exact Or.inr ⟨hv, rfl⟩

/-- Witness for C1 (amended) at the valid input `(4/5, 9/10, 1, 1)`
(a genuine left-going shock plus contact). -/
theorem claim_c1_witness :
    (typesOf (exact_riemann_solution (4/5) (9/10) 1 1)).count .contact = 1 ∨
    ((1:ℝ) = 1 ∧ typesOf (exact_riemann_solution (4/5) (9/10) 1 1) = [.raref]) := by
  have hsol : exact_riemann_solution (4/5) (9/10) 1 1 = .ok (branch1 (4/5) (9/10) 1 1) :=
    solve_eq1 (by norm_num [G0, f]) (by norm_num [G1, f])
  have h := claim_c1_amended (4/5) (9/10) 1 1 (by norm_num) (by norm_num) (by norm_num)
    (by norm_num) (by norm_num) (by norm_num) _ hsol
  rcases h with ⟨hcount, _⟩ | ⟨hv, ht⟩
  · left
    rw [hsol]
    simpa [typesOf] using hcount
  · right
    rw [hsol]
    exact ⟨rfl, by simpa [typesOf] using ht⟩

/-- Counterexample to C6 as stated: at `(1/2, 1/2, 50, 30)` the guard of the
shock/rarefaction branch (3) fires (`f_l = 12.5 > v_r/4 = 7.5`, `q_r ≤ 1/2`),
so the solver does not classify this input as a transonic rarefaction: the
returned `wave_types` is `['shock', 'contact', 'raref']` with a single
rarefaction, not two rarefactions around the contact. -/
theorem claim_c6_counterexample :
    (exact_riemann_solution (1/2) (1/2) 50 30).isOk = true ∧
    typesOf (exact_riemann_solution (1/2) (1/2) 50 30) = [.shock, .contact, .raref] ∧
    (typesOf (exact_riemann_solution (1/2) (1/2) 50 30)).count .raref ≠ 2 := by
  have hsol : exact_riemann_solution (1/2) (1/2) 50 30 = .ok (branch3 (1/2) (1/2) 50 30) :=
    solve_eq3 (by norm_num [G0, f]) (by norm_num [G1, f]) (by norm_num [G2, f])
      (by norm_num [G3, f])
  rw [hsol]
  exact ⟨rfl, rfl, by decide⟩

/-- C6 (amended): at `(1/2, 1/2, 50, 30)` the solver takes the left-shock
plus right-rarefaction branch (3): the intermediate state is
`q_star = (1+sqrt(1-30/50))/2` (as the claim predicted), but the waves are
`['shock', 'contact', 'raref']` with speeds `[-5*sqrt(10), 0, (0, 0)]`
(the rarefaction degenerate since `c_r = 0`), weakly ordered. -/
theorem claim_c6_amended :
    statesOf (exact_riemann_solution (1/2) (1/2) 50 30) =
      [1 / 2, (1 + Real.sqrt (1 - 30 / 50)) / 2, 1 / 2, 1 / 2] ∧
    typesOf (exact_riemann_solution (1/2) (1/2) 50 30) = [.shock, .contact, .raref] ∧
    speedsOf (exact_riemann_solution (1/2) (1/2) 50 30) =
      [.pt (-(5 * Real.sqrt 10)), .pt 0, .iv 0 0] ∧
    -(5 * Real.sqrt 10) < 0 := by
  have hsol : exact_riemann_solution (1/2) (1/2) 50 30 = .ok (branch3 (1/2) (1/2) 50 30) :=
    solve_eq3 (by norm_num [G0, f]) (by norm_num [G1, f]) (by norm_num [G2, f])
      (by norm_num [G3, f])
  have h10 : (0:ℝ) < Real.sqrt 10 := Real.sqrt_pos.mpr (by norm_num)
  have hm : Real.sqrt 10 * Real.sqrt 10 = 10 := Real.mul_self_sqrt (by norm_num)
  have hs1 : Real.sqrt (1 - 30 / 50 : ℝ) = Real.sqrt 10 / 5 := by
    rw [show (1 - 30 / 50 : ℝ) = (Real.sqrt 10 / 5) ^ 2 by
      rw [div_pow, Real.sq_sqrt (by norm_num : (0:ℝ) ≤ 10)]; norm_num]
    exact Real.sqrt_sq (by positivity)
  rw [hsol]
  refine ⟨rfl, rfl, ?_, by nlinarith⟩
  show [Speed.pt (-(f (1/2) 50 - 30 / 4) / ((1 + Real.sqrt (1 - 30 / 50)) / 2 - 1/2)),
      Speed.pt 0, Speed.iv 0 (c (1/2) 30)] = _
  have hc : c (1/2) 30 = 0 := by unfold c; norm_num
  have hss : -(f (1/2) 50 - 30 / 4) / ((1 + Real.sqrt (1 - 30 / 50)) / 2 - 1/2) =
      -(5 * Real.sqrt 10) := by
    rw [f_half, hs1]
    rw [show ((1 + Real.sqrt 10 / 5) / 2 - 1/2 : ℝ) = Real.sqrt 10 / 10 by ring]
    rw [div_eq_iff (by positivity : (Real.sqrt 10 / 10 : ℝ) ≠ 0)]
    linear_combination (1/2 : ℝ) * hm
  rw [hss, hc]

/-- C9: the solver returns the unclassified-state error, carrying the two
computed fluxes `(f_l, f_r)`, exactly when none of the branch guards holds;
and (since the guards are in fact exhaustive over the reals) it never
actually does: every result is `ok`.  The `Except` error type has a single
constructor, so this is the only failure the solver can produce. -/
theorem claim_c9_error_contract (q_l q_r v_l v_r : ℝ) :
    (exact_riemann_solution q_l q_r v_l v_r =
        .error ⟨f q_l v_l, f q_r v_r⟩ ↔
      ¬(G0 q_l q_r v_l v_r ∨ G1 q_l q_r v_l v_r ∨ G2 q_l q_r v_l v_r ∨
        G3 q_l q_r v_l v_r ∨ G4 q_l q_r v_l v_r ∨ G6 q_l q_r v_l v_r ∨
        G7 q_l q_r v_l v_r ∨ G8 q_l q_r v_l v_r)) ∧
    (exact_riemann_solution q_l q_r v_l v_r).isOk = true := by
  have hok : (exact_riemann_solution q_l q_r v_l v_r).isOk = true := by
    rcases solve_branches q_l q_r v_l v_r with
      ⟨_, hs⟩ | ⟨_, hs⟩ | ⟨_, hs⟩ | ⟨_, hs⟩ | ⟨_, hs⟩ | ⟨_, hs⟩ | ⟨_, hs⟩ |
      ⟨_, _, hs⟩ | ⟨_, _, hs⟩ | ⟨_, _, hs⟩ <;> rw [hs] <;> rfl
  refine ⟨⟨fun herr => ?_, fun hng => ?_⟩, hok⟩
  · rw [herr] at hok
    exact absurd hok (by simp [Except.isOk, Except.toBool])
  · exact (guards_exhaustive q_l q_r v_l v_r
      (fun h => hng (Or.inl h))
      (fun h => hng (Or.inr (Or.inl h)))
      (fun h => hng (Or.inr (Or.inr (Or.inl h))))
      (fun h => hng (Or.inr (Or.inr (Or.inr (Or.inl h)))))
      (fun h => hng (Or.inr (Or.inr (Or.inr (Or.inr (Or.inl h))))))
      (fun h => hng (Or.inr (Or.inr (Or.inr (Or.inr (Or.inr (Or.inl h)))))))
      (fun h => hng (Or.inr (Or.inr (Or.inr (Or.inr (Or.inr (Or.inr (Or.inl h))))))))
      (fun h => hng (Or.inr (Or.inr (Or.inr (Or.inr (Or.inr (Or.inr (Or.inr h))))))))).elim

/-- A square-root expression `(1+sqrt t)/2` lies in `[0,1]` when `t ≤ 1`. -/
theorem up_bounds {t : ℝ} (ht : t ≤ 1) :
    0 ≤ (1 + Real.sqrt t) / 2 ∧ (1 + Real.sqrt t) / 2 ≤ 1 := by
  have h0 := Real.sqrt_nonneg t
  have h1 := Real.sqrt_le_one.mpr ht
  constructor <;> linarith

/-- A square-root expression `(1-sqrt t)/2` lies in `[0,1]` when `t ≤ 1`. -/
theorem dn_bounds {t : ℝ} (ht : t ≤ 1) :
    0 ≤ (1 - Real.sqrt t) / 2 ∧ (1 - Real.sqrt t) / 2 ≤ 1 := by
  have h0 := Real.sqrt_nonneg t
  have h1 := Real.sqrt_le_one.mpr ht
  constructor <;> linarith

/-- C10: on valid inputs, every branch guard forces the argument of the
square root used for its `q_star` to be nonnegative, and all returned states
(including every `q_star`) lie in `[0, 1]`. -/
theorem claim_c10_sqrt_domain (q_l q_r v_l v_r : ℝ)
    (hql0 : 0 ≤ q_l) (hql1 : q_l ≤ 1) (hqr0 : 0 ≤ q_r) (hqr1 : q_r ≤ 1)
    (hvl : 0 < v_l) (hvr : 0 < v_r) :
    (G1 q_l q_r v_l v_r → 0 ≤ 1 - 4 * f q_r v_r / v_l) ∧
    (G2 q_l q_r v_l v_r → 0 ≤ 1 - 4 * f q_l v_l / v_r) ∧
    (G3 q_l q_r v_l v_r → 0 ≤ 1 - v_r / v_l) ∧
    (G4 q_l q_r v_l v_r → 0 ≤ 1 - v_l / v_r) ∧
    (G6 q_l q_r v_l v_r → 0 ≤ 1 - 4 * f q_r v_r / v_l) ∧
    (G7 q_l q_r v_l v_r → 0 ≤ 1 - 4 * f q_l v_l / v_r) ∧
    (v_r < v_l → 0 ≤ 1 - v_r / v_l) ∧
    (v_l < v_r → 0 ≤ 1 - v_l / v_r) ∧
    (∀ sol, exact_riemann_solution q_l q_r v_l v_r = .ok sol →
      ∀ x ∈ sol.states, 0 ≤ x ∧ x ≤ 1) := by
  have hfl4 := f_le_quarter (v := v_l) q_l hvl
  have hfr4 := f_le_quarter (v := v_r) q_r hvr
  have hfl0 := f_nonneg hql0 hql1 hvl
  have hfr0 := f_nonneg hqr0 hqr1 hvr
  have tb1 : 1 - 4 * f q_r v_r / v_l ≤ 1 := by
    have : 0 ≤ 4 * f q_r v_r / v_l := div_nonneg (by linarith) hvl.le
    linarith
  have tb2 : 1 - 4 * f q_l v_l / v_r ≤ 1 := by
    have : 0 ≤ 4 * f q_l v_l / v_r := div_nonneg (by linarith) hvr.le
    linarith
  have tb3 : 1 - v_r / v_l ≤ 1 := by
    have : 0 ≤ v_r / v_l := div_nonneg hvr.le hvl.le
    linarith
  have tb4 : 1 - v_l / v_r ≤ 1 := by
    have : 0 ≤ v_l / v_r := div_nonneg hvl.le hvr.le
    linarith
  refine ⟨?_, ?_, ?_, ?_, ?_, ?_, ?_, ?_, ?_⟩
  · rintro ⟨h, _⟩
    rw [sub_nonneg, div_le_one hvl]
    linarith
  · rintro ⟨h, _⟩
    rw [sub_nonneg, div_le_one hvr]
    linarith
  · rintro ⟨h, _⟩
    rw [sub_nonneg, div_le_one hvl]
    linarith
  · rintro ⟨h, _⟩
    rw [sub_nonneg, div_le_one hvr]
    linarith
  · rintro ⟨⟨_, h⟩, _⟩
    rw [sub_nonneg, div_le_one hvl]
    linarith
  · rintro ⟨⟨_, h⟩, _⟩
    rw [sub_nonneg, div_le_one hvr]
    linarith
  · intro h
    rw [sub_nonneg, div_le_one hvl]
    linarith
  · intro h
    rw [sub_nonneg, div_le_one hvr]
    linarith
  intro sol h x hx
  rcases solve_branches q_l q_r v_l v_r with
    ⟨_, hs⟩ | ⟨_, hs⟩ | ⟨_, hs⟩ | ⟨_, hs⟩ | ⟨_, hs⟩ | ⟨_, hs⟩ | ⟨_, hs⟩ |
    ⟨_, _, hs⟩ | ⟨_, _, hs⟩ | ⟨_, _, hs⟩ <;>
    (rw [h] at hs; injection hs with hs; subst hs)
  · simp [branch0] at hx
    rcases hx with rfl | rfl
    exacts [⟨hql0, hql1⟩, ⟨hqr0, hqr1⟩]
  · simp [branch1] at hx
    rcases hx with rfl | rfl | rfl
    exacts [⟨hql0, hql1⟩, up_bounds tb1, ⟨hqr0, hqr1⟩]
  · simp [branch2] at hx
    rcases hx with rfl | rfl | rfl
    exacts [⟨hql0, hql1⟩, dn_bounds tb2, ⟨hqr0, hqr1⟩]
  · simp [branch3] at hx
    rcases hx with rfl | rfl | rfl | rfl
    exacts [⟨hql0, hql1⟩, up_bounds tb3, ⟨by norm_num, by norm_num⟩, ⟨hqr0, hqr1⟩]
  · simp [branch4] at hx
    rcases hx with rfl | rfl | rfl | rfl
    exacts [⟨hql0, hql1⟩, ⟨by norm_num, by norm_num⟩, dn_bounds tb4, ⟨hqr0, hqr1⟩]
  · simp [branch6] at hx
    rcases hx with rfl | rfl | rfl
    exacts [⟨hql0, hql1⟩, up_bounds tb1, ⟨hqr0, hqr1⟩]
  · simp [branch7] at hx
    rcases hx with rfl | rfl | rfl
    exacts [⟨hql0, hql1⟩, dn_bounds tb2, ⟨hqr0, hqr1⟩]
  · simp [branch5a] at hx
    rcases hx with rfl | rfl | rfl | rfl
    exacts [⟨hql0, hql1⟩, up_bounds tb3, ⟨by norm_num, by norm_num⟩, ⟨hqr0, hqr1⟩]
  · simp [branch5b] at hx
    rcases hx with rfl | rfl | rfl | rfl
    exacts [⟨hql0, hql1⟩, ⟨by norm_num, by norm_num⟩, dn_bounds tb4, ⟨hqr0, hqr1⟩]
  · simp [branch5c] at hx
    rcases hx with rfl | rfl
    exacts [⟨hql0, hql1⟩, ⟨hqr0, hqr1⟩]

/-- Witness for C10 at the valid input `(4/5, 9/10, 1, 1)`. -/
theorem claim_c10_witness :
    G1 (4/5) (9/10) 1 1 ∧ (0:ℝ) ≤ 1 - 4 * f (9/10) 1 / 1 := by
  have h := claim_c10_sqrt_domain (4/5) (9/10) 1 1 (by norm_num) (by norm_num)
    (by norm_num) (by norm_num) (by norm_num) (by norm_num)
  have hg : G1 (4/5) (9/10) 1 1 := by norm_num [G1, f]
  exact ⟨hg, h.1 hg⟩

/-- C3: whenever the solver returns and a `'contact'` occurs at position `i`
of `wave_types`, the neighboring states satisfy flux conservation across the
interface: `f(states[i], v_l) = f(states[i+1], v_r)`.  (This holds even for a
degenerate contact; the non-degeneracy hypothesis of the claim is recorded
but not needed.) -/
theorem claim_c3_flux_conservation (q_l q_r v_l v_r : ℝ)
    (hvl : 0 < v_l) (hvr : 0 < v_r)
    (sol : RSolution) (h : exact_riemann_solution q_l q_r v_l v_r = .ok sol)
    (i : ℕ) (hc : sol.wave_types.getD i .shock = .contact)
    (hne : sol.states.getD i 0 ≠ sol.states.getD (i + 1) 0) :
    f (sol.states.getD i 0) v_l = f (sol.states.getD (i + 1) 0) v_r := by
  rcases solve_branches q_l q_r v_l v_r with
    ⟨hg, hs⟩ | ⟨hg, hs⟩ | ⟨hg, hs⟩ | ⟨hg, hs⟩ | ⟨hg, hs⟩ | ⟨hg, hs⟩ | ⟨hg, hs⟩ |
    ⟨hg, hvv, hs⟩ | ⟨hg, hvv, hs⟩ | ⟨hg, hvv, hs⟩ <;>
    (rw [h] at hs; injection hs with hs; subst hs)
  · rcases i with _ | i
    · simp only [branch0, List.getD_cons_zero, List.getD_cons_succ]
      exact hg.symm
    · simp [branch0] at hc
  · rcases i with _ | _ | i
    · simp [branch1] at hc
    · simp only [branch1, List.getD_cons_zero, List.getD_cons_succ]
      exact qstar_up_f v_l (f q_r v_r) hvl
        (by have := f_le_quarter (v := v_l) q_l hvl; linarith [hg.1])
    · simp [branch1] at hc
  · rcases i with _ | _ | i
    · simp only [branch2, List.getD_cons_zero, List.getD_cons_succ]
      exact (qstar_dn_f v_r (f q_l v_l) hvr
        (by have := f_le_quarter (v := v_r) q_r hvr; linarith [hg.1])).symm
    · simp [branch2] at hc
    · simp [branch2] at hc
  · rcases i with _ | _ | _ | i
    · simp [branch3] at hc
    · simp only [branch3, List.getD_cons_zero, List.getD_cons_succ]
      rw [f_half, show (1 - v_r / v_l : ℝ) = 1 - 4 * (v_r / 4) / v_l by ring]
      exact qstar_up_f v_l (v_r / 4) hvl
        (by have := f_le_quarter (v := v_l) q_l hvl; linarith [hg.1])
    · simp [branch3] at hc
    · simp [branch3] at hc
  · rcases i with _ | _ | _ | i
    · simp [branch4] at hc
    · simp only [branch4, List.getD_cons_zero, List.getD_cons_succ]
      rw [f_half, show (1 - v_l / v_r : ℝ) = 1 - 4 * (v_l / 4) / v_r by ring]
      exact (qstar_dn_f v_r (v_l / 4) hvr
        (by have := f_le_quarter (v := v_r) q_r hvr; linarith [hg.1])).symm
    · simp [branch4] at hc
    · simp [branch4] at hc
  · rcases i with _ | _ | i
    · simp [branch6] at hc
    · simp only [branch6, List.getD_cons_zero, List.getD_cons_succ]
      exact qstar_up_f v_l (f q_r v_r) hvl hg.1.2
    · simp [branch6] at hc
  · rcases i with _ | _ | i
    · simp only [branch7, List.getD_cons_zero, List.getD_cons_succ]
      exact (qstar_dn_f v_r (f q_l v_l) hvr hg.1.2).symm
    · simp [branch7] at hc
    · simp [branch7] at hc
  · rcases i with _ | _ | _ | i
    · simp [branch5a] at hc
    · simp only [branch5a, List.getD_cons_zero, List.getD_cons_succ]
      rw [f_half, show (1 - v_r / v_l : ℝ) = 1 - 4 * (v_r / 4) / v_l by ring]
      exact qstar_up_f v_l (v_r / 4) hvl (by linarith)
    · simp [branch5a] at hc
    · simp [branch5a] at hc
  · rcases i with _ | _ | _ | i
    · simp [branch5b] at hc
    · simp only [branch5b, List.getD_cons_zero, List.getD_cons_succ]
      rw [f_half, show (1 - v_l / v_r : ℝ) = 1 - 4 * (v_l / 4) / v_r by ring]
      exact (qstar_dn_f v_r (v_l / 4) hvr (by linarith)).symm
    · simp [branch5b] at hc
    · simp [branch5b] at hc
  · rcases i with _ | i <;> simp [branch5c] at hc

/-- Witness for C3 at `(1/5, 4/5, 1, 1)`: the contact is at index 0, its
neighboring states `1/5` and `4/5` differ, and their fluxes agree. -/
theorem claim_c3_witness :
    (statesOf (exact_riemann_solution (1/5) (4/5) 1 1)).getD 0 0 ≠
      (statesOf (exact_riemann_solution (1/5) (4/5) 1 1)).getD 1 0 ∧
    f ((statesOf (exact_riemann_solution (1/5) (4/5) 1 1)).getD 0 0) 1 =
      f ((statesOf (exact_riemann_solution (1/5) (4/5) 1 1)).getD 1 0) 1 := by
  have hsol : exact_riemann_solution (1/5) (4/5) 1 1 = .ok (branch0 (1/5) (4/5)) :=
    solve_eq0 (by norm_num [G0, f])
  have hne : (branch0 (1/5 : ℝ) (4/5)).states.getD 0 0 ≠
      (branch0 (1/5 : ℝ) (4/5)).states.getD 1 0 := by
    norm_num [branch0]
  have h := claim_c3_flux_conservation (1/5) (4/5) 1 1 (by norm_num) (by norm_num)
    _ hsol 0 (by rfl) hne
  rw [hsol]
  exact ⟨by simpa [statesOf] using hne, by simpa [statesOf] using h⟩

/-- The left end of a wave's speed: the scalar speed of a shock or contact,
or the lower bound of a rarefaction interval. -/
def speedLo : Speed → ℝ
  | .pt s => s
  | .iv lo _ => lo

/-- C4: on every valid input on which the solver returns, the wave speeds
(scalar speeds, and lower bounds of rarefaction intervals) are weakly
increasing from left to right. -/
theorem claim_c4_speed_order (q_l q_r v_l v_r : ℝ)
    (hql0 : 0 ≤ q_l) (hql1 : q_l ≤ 1) (hqr0 : 0 ≤ q_r) (hqr1 : q_r ≤ 1)
    (hvl : 0 < v_l) (hvr : 0 < v_r)
    (sol : RSolution) (h : exact_riemann_solution q_l q_r v_l v_r = .ok sol) :
    List.Chain' (fun a b => speedLo a ≤ speedLo b) sol.speeds := by
  rcases solve_branches q_l q_r v_l v_r with
    ⟨hg, hs⟩ | ⟨hg, hs⟩ | ⟨hg, hs⟩ | ⟨hg, hs⟩ | ⟨hg, hs⟩ | ⟨hg, hs⟩ | ⟨hg, hs⟩ |
    ⟨hg, hvv, hs⟩ | ⟨hg, hvv, hs⟩ | ⟨hg, hvv, hs⟩ <;>
    (rw [h] at hs; injection hs with hs; subst hs)
  · simp [branch0]
  · have hq := qstar_up_gt v_l (f q_r v_r) q_l hvl hg.1
    simp only [branch1, List.chain'_cons, List.chain'_singleton, and_true, speedLo]
    exact div_nonpos_of_nonpos_of_nonneg (by linarith [hg.1]) (by linarith)
  · have hq := qstar_dn_lt v_r (f q_l v_l) q_r hvr hg.1
    simp only [branch2, List.chain'_cons, List.chain'_singleton, and_true, speedLo]
    exact div_nonneg (by linarith [hg.1]) (by linarith)
  · have hq := qstar_up_gt v_l (v_r / 4) q_l hvl hg.1
    rw [show (1 - 4 * (v_r / 4) / v_l : ℝ) = 1 - v_r / v_l by ring] at hq
    simp only [branch3, List.chain'_cons, List.chain'_singleton, and_true, speedLo]
    exact ⟨div_nonpos_of_nonpos_of_nonneg (by linarith [hg.1]) (by linarith), le_refl 0⟩
  · have hq := qstar_dn_lt v_r (v_l / 4) q_r hvr hg.1
    rw [show (1 - 4 * (v_l / 4) / v_r : ℝ) = 1 - v_l / v_r by ring] at hq
    simp only [branch4, List.chain'_cons, List.chain'_singleton, and_true, speedLo, c]
    constructor
    · nlinarith [hg.2]
    · exact div_nonneg (by linarith [hg.1]) (by linarith)
  · simp only [branch6, List.chain'_cons, List.chain'_singleton, and_true, speedLo, c]
    nlinarith [hg.2.1]
  · have hs0 := Real.sqrt_nonneg (1 - 4 * f q_l v_l / v_r)
    simp only [branch7, List.chain'_cons, List.chain'_singleton, and_true, speedLo, c]
    nlinarith [mul_nonneg hvr.le hs0]
  · simp only [branch5a, List.chain'_cons, List.chain'_singleton, and_true, speedLo, c]
    constructor
    · nlinarith [hg.1]
    · exact le_refl 0
  · have hs0 := Real.sqrt_nonneg (1 - v_l / v_r)
    simp only [branch5b, List.chain'_cons, List.chain'_singleton, and_true, speedLo, c]
    constructor
    · nlinarith [hg.1]
    · nlinarith [mul_nonneg hvr.le hs0]
  · simp [branch5c]

/-- Witness for C4 at the valid input `(1/5, 2/5, 1, 1)` (right-going shock
branch). -/
theorem claim_c4_witness :
    List.Chain' (fun a b => speedLo a ≤ speedLo b)
      (speedsOf (exact_riemann_solution (1/5) (2/5) 1 1)) := by
  have hsol : exact_riemann_solution (1/5) (2/5) 1 1 = .ok (branch2 (1/5) (2/5) 1 1) :=
    solve_eq2 (by norm_num [G0, f]) (by norm_num [G1, f]) (by norm_num [G2, f])
  have h := claim_c4_speed_order (1/5) (2/5) 1 1 (by norm_num) (by norm_num) (by norm_num)
    (by norm_num) (by norm_num) (by norm_num) _ hsol
  rw [hsol]
  simpa [speedsOf] using h

/-- C2 (amended): in the right-going-shock branch (`f_l < f_r`, `q_l < 1/2`),
the evaluator assigns `ξ ≤ 0 ↦ q_l`, `0 < ξ < s ↦ q_star` and `s < ξ ↦ q_r`
as half-open segments — but the shock boundary `ξ = s` itself is assigned
`q_star + q_r`, the sum of both adjacent states, because the numpy masks
`(xi<=shock_speed)` and `(xi>=shock_speed)` overlap there. -/
theorem claim_c2_amended (q_l q_r v_l v_r : ℝ)
    (hql0 : 0 ≤ q_l) (hql1 : q_l ≤ 1) (hqr0 : 0 ≤ q_r) (hqr1 : q_r ≤ 1)
    (hvl : 0 < v_l) (hvr : 0 < v_r)
    (hg2 : f q_l v_l < f q_r v_r) (hql : q_l < 1 / 2)
    (sol : RSolution) (h : exact_riemann_solution q_l q_r v_l v_r = .ok sol) :
    ∃ q_star ss : ℝ,
      sol.states = [q_l, q_star, q_r] ∧
      sol.speeds = [.pt 0, .pt ss] ∧ 0 < ss ∧
      (∀ ξ, ξ ≤ 0 → sol.reval ξ = q_l) ∧
      (∀ ξ, 0 < ξ → ξ < ss → sol.reval ξ = q_star) ∧
      sol.reval ss = q_star + q_r ∧
      (∀ ξ, ss < ξ → sol.reval ξ = q_r) := by
  have h0 : ¬G0 q_l q_r v_l v_r := fun hh => absurd hg2 (by rw [hh]; exact lt_irrefl _)
  have h1 : ¬G1 q_l q_r v_l v_r := fun hh => absurd hh.1 (not_lt.mpr hg2.le)
  have hs := solve_eq2 h0 h1 ⟨hg2, hql⟩
  rw [h] at hs
  injection hs with hs
  subst hs
  have hq := qstar_dn_lt v_r (f q_l v_l) q_r hvr hg2
  have hss : 0 < (f q_r v_r - f q_l v_l) /
      (q_r - (1 - Real.sqrt (1 - 4 * f q_l v_l / v_r)) / 2) :=
    div_pos (by linarith) (by linarith)
  refine ⟨(1 - Real.sqrt (1 - 4 * f q_l v_l / v_r)) / 2,
    (f q_r v_r - f q_l v_l) / (q_r - (1 - Real.sqrt (1 - 4 * f q_l v_l / v_r)) / 2),
    rfl, rfl, hss, ?_, ?_, ?_, ?_⟩
  · intro ξ hξ
    simp only [branch2, ind]
    split_ifs <;> first | ring1 | linarith
  · intro ξ hξ1 hξ2
    simp only [branch2, ind]
    split_ifs <;> first | ring1 | linarith
  · simp only [branch2, ind]
    split_ifs <;> first | ring1 | linarith
  · intro ξ hξ
    simp only [branch2, ind]
    split_ifs <;> first | ring1 | linarith

/-- Counterexample to C2 as stated: at the valid input `(3/8, 1/2, 32/5, 8)`
the solver takes the right-going-shock branch with `q_star = 1/4` and shock
speed `2`; at the boundary speed `ξ = 2` the evaluator returns
`3/4 = q_star + q_r`, the sum of the two adjacent states, which is the value
of neither adjacent segment. -/
theorem claim_c2_counterexample :
    (exact_riemann_solution (3/8) (1/2) (32/5) 8).isOk = true ∧
    statesOf (exact_riemann_solution (3/8) (1/2) (32/5) 8) = [3/8, 1/4, 1/2] ∧
    speedsOf (exact_riemann_solution (3/8) (1/2) (32/5) 8) = [.pt 0, .pt 2] ∧
    evalAt (exact_riemann_solution (3/8) (1/2) (32/5) 8) 2 = 3/4 ∧
    ((3/4 : ℝ) ≠ 1/4 ∧ (3/4 : ℝ) ≠ 1/2) := by
  have hfl : f (3/8 : ℝ) (32/5) = 3/2 := by norm_num [f]
  have hfr : f (1/2 : ℝ) 8 = 2 := by norm_num [f]
  have hsq : Real.sqrt (1 - 4 * f (3/8) (32/5) / 8) = 1/2 := by
    rw [hfl, show (1 - 4 * (3/2 : ℝ) / 8) = (1/2) ^ 2 by norm_num]
    exact Real.sqrt_sq (by norm_num)
  have hsol : exact_riemann_solution (3/8) (1/2) (32/5) 8 = .ok (branch2 (3/8) (1/2) (32/5) 8) :=
    solve_eq2 (by norm_num [G0, f]) (by norm_num [G1, f]) (by norm_num [G2, f])
  have hqs : (1 - Real.sqrt (1 - 4 * f (3/8) (32/5) / 8)) / 2 = (1/4 : ℝ) := by
    rw [hsq]
    norm_num
  have hss : (f (1/2) 8 - f (3/8) (32/5)) /
      ((1:ℝ)/2 - (1 - Real.sqrt (1 - 4 * f (3/8) (32/5) / 8)) / 2) = 2 := by
    rw [hsq, hfl, hfr]
    norm_num
  rw [hsol]
  refine ⟨rfl, ?_, ?_, ?_, by norm_num, by norm_num⟩
  · simp only [statesOf, branch2]
    rw [hqs]
  · simp only [speedsOf, branch2]
    rw [hss]
  · simp only [evalAt, branch2, ind]
    rw [hss, hqs]
    norm_num

/-- Witness for C2 (amended) at `(3/8, 1/2, 32/5, 8)`: the evaluator equals
`q_l = 3/8` at the sample point `ξ = -1 ≤ 0`. -/
theorem claim_c2_witness :
    evalAt (exact_riemann_solution (3/8) (1/2) (32/5) 8) (-1) = 3/8 := by
  have hsol : exact_riemann_solution (3/8) (1/2) (32/5) 8 = .ok (branch2 (3/8) (1/2) (32/5) 8) :=
    solve_eq2 (by norm_num [G0, f]) (by norm_num [G1, f]) (by norm_num [G2, f])
  obtain ⟨qs, ss, hstates, hspeeds, hss, hleft, hmid, hbound, hright⟩ :=
    claim_c2_amended (3/8) (1/2) (32/5) 8 (by norm_num) (by norm_num) (by norm_num)
      (by norm_num) (by norm_num) (by norm_num) (by norm_num [f]) (by norm_num) _ hsol
  rw [hsol]
  exact hleft (-1) (by norm_num)

/-- Counterexample to C5 as stated: at the valid degenerate input
`(1/5, 4/5, 1, 1)` (equal fluxes `4/25`), the evaluator returns `q_l = 1/5`
everywhere — in particular at `ξ = 100`, strictly above the only wave speed
`0` — although `q_r = 4/5`. -/
theorem claim_c5_counterexample :
    (exact_riemann_solution (1/5) (4/5) 1 1).isOk = true ∧
    speedsOf (exact_riemann_solution (1/5) (4/5) 1 1) = [.pt 0] ∧
    evalAt (exact_riemann_solution (1/5) (4/5) 1 1) 100 = 1/5 ∧
    (1/5 : ℝ) ≠ 4/5 := by
  have hsol : exact_riemann_solution (1/5) (4/5) 1 1 = .ok (branch0 (1/5) (4/5)) :=
    solve_eq0 (by norm_num [G0, f])
  rw [hsol]
  exact ⟨rfl, rfl, rfl, by norm_num⟩

/-- The right end of a wave's speed: the scalar speed of a shock or contact,
or the upper bound of a rarefaction interval. -/
def speedHi : Speed → ℝ
  | .pt s => s
  | .iv _ hi => hi

/-- A function equal to a constant on `(a, 0)` with `a < 0` tends to that
constant from the left of `0`. -/
theorem tendsto_left_const (g : ℝ → ℝ) (K a : ℝ) (ha : a < 0)
    (hg : ∀ ξ, a < ξ → ξ < 0 → g ξ = K) :
    Filter.Tendsto g (nhdsWithin 0 (Set.Iio 0)) (nhds K) := by
  have hmem : Set.Ioo a 0 ∈ nhdsWithin (0 : ℝ) (Set.Iio 0) := by
    rw [mem_nhdsWithin]
    exact ⟨Set.Ioi a, isOpen_Ioi, ha, fun x hx => ⟨hx.1, hx.2⟩⟩
  exact Filter.Tendsto.congr'
    (Filter.eventuallyEq_of_mem hmem (fun x hx => (hg x hx.1 hx.2).symm))
    tendsto_const_nhds

/-- A function equal to a constant on `(0, b)` with `0 < b` tends to that
constant from the right of `0`. -/
theorem tendsto_right_const (g : ℝ → ℝ) (K b : ℝ) (hb : 0 < b)
    (hg : ∀ ξ, 0 < ξ → ξ < b → g ξ = K) :
    Filter.Tendsto g (nhdsWithin 0 (Set.Ioi 0)) (nhds K) := by
  have hmem : Set.Ioo 0 b ∈ nhdsWithin (0 : ℝ) (Set.Ioi 0) := by
    rw [mem_nhdsWithin]
    exact ⟨Set.Iio b, isOpen_Iio, hb, fun x hx => ⟨hx.2, hx.1⟩⟩
  exact Filter.Tendsto.congr'
    (Filter.eventuallyEq_of_mem hmem (fun x hx => (hg x hx.1 hx.2).symm))
    tendsto_const_nhds

/-- The rarefaction profile `(1 - ξ/v)/2` tends to `1/2` at `ξ = 0`. -/
theorem tendsto_lin (v : ℝ) :
    Filter.Tendsto (fun ξ : ℝ => (1 - ξ / v) / 2) (nhds 0) (nhds (1 / 2)) := by
  have hcont : Continuous (fun ξ : ℝ => (1 - ξ / v) / 2) :=
    (continuous_const.sub (continuous_id.div_const v)).div_const 2
  have h := hcont.tendsto 0
  simpa using h

/-- A function equal to the rarefaction profile on `(a, 0)` with `a < 0`
tends to `1/2` from the left of `0`. -/
theorem tendsto_left_lin (g : ℝ → ℝ) (v a : ℝ) (ha : a < 0)
    (hg : ∀ ξ, a < ξ → ξ < 0 → g ξ = (1 - ξ / v) / 2) :
    Filter.Tendsto g (nhdsWithin 0 (Set.Iio 0)) (nhds (1 / 2)) := by
  have hmem : Set.Ioo a 0 ∈ nhdsWithin (0 : ℝ) (Set.Iio 0) := by
    rw [mem_nhdsWithin]
    exact ⟨Set.Ioi a, isOpen_Ioi, ha, fun x hx => ⟨hx.1, hx.2⟩⟩
  exact Filter.Tendsto.congr'
    (Filter.eventuallyEq_of_mem hmem (fun x hx => (hg x hx.1 hx.2).symm))
    ((tendsto_lin v).mono_left nhdsWithin_le_nhds)

/-- A function equal to the rarefaction profile on `(0, b)` with `0 < b`
tends to `1/2` from the right of `0`. -/
theorem tendsto_right_lin (g : ℝ → ℝ) (v b : ℝ) (hb : 0 < b)
    (hg : ∀ ξ, 0 < ξ → ξ < b → g ξ = (1 - ξ / v) / 2) :
    Filter.Tendsto g (nhdsWithin 0 (Set.Ioi 0)) (nhds (1 / 2)) := by
  have hmem : Set.Ioo 0 b ∈ nhdsWithin (0 : ℝ) (Set.Ioi 0) := by
    rw [mem_nhdsWithin]
    exact ⟨Set.Iio b, isOpen_Iio, hb, fun x hx => ⟨hx.2, hx.1⟩⟩
  exact Filter.Tendsto.congr'
    (Filter.eventuallyEq_of_mem hmem (fun x hx => (hg x hx.1 hx.2).symm))
    ((tendsto_lin v).mono_left nhdsWithin_le_nhds)

/-- Variant of `tendsto_left_lin` whose limit value is given by an equation,
for use when the target value is a square-root expression equal to `1/2`. -/
theorem tendsto_left_lin2 (g : ℝ → ℝ) (v a K : ℝ) (ha : a < 0) (hK : K = 1 / 2)
    (hg : ∀ ξ, a < ξ → ξ < 0 → g ξ = (1 - ξ / v) / 2) :
    Filter.Tendsto g (nhdsWithin 0 (Set.Iio 0)) (nhds K) := by
  rw [hK]
  exact tendsto_left_lin g v a ha hg

/-- Variant of `tendsto_right_lin` whose limit value is given by an equation. -/
theorem tendsto_right_lin2 (g : ℝ → ℝ) (v b K : ℝ) (hb : 0 < b) (hK : K = 1 / 2)
    (hg : ∀ ξ, 0 < ξ → ξ < b → g ξ = (1 - ξ / v) / 2) :
    Filter.Tendsto g (nhdsWithin 0 (Set.Ioi 0)) (nhds K) := by
  rw [hK]
  exact tendsto_right_lin g v b hb hg

/-- If the flux of `q ≥ 1/2` is at most `a`, the upper intermediate state
lies weakly to the left of `q`. -/
theorem qstar_up_le (v a q : ℝ) (hv : 0 < v) (hq : 1 / 2 ≤ q)
    (hfa : f q v ≤ a) (ha : a ≤ v / 4) :
    (1 + Real.sqrt (1 - 4 * a / v)) / 2 ≤ q := by
  have hfs : f ((1 + Real.sqrt (1 - 4 * a / v)) / 2) v = a := qstar_up_f v a hv ha
  by_contra hc
  push_neg at hc
  have key : 0 < v * ((1 + Real.sqrt (1 - 4 * a / v)) / 2 - q) *
      (q + (1 + Real.sqrt (1 - 4 * a / v)) / 2 - 1) :=
    mul_pos (mul_pos hv (by linarith)) (by linarith)
  have hlt : f ((1 + Real.sqrt (1 - 4 * a / v)) / 2) v < f q v := by
    unfold f at hfs ⊢
    nlinarith [key]
  linarith

/-- If the flux of `q ≤ 1/2` is at most `a`, the lower intermediate state
lies weakly to the right of `q`. -/
theorem qstar_dn_ge (v a q : ℝ) (hv : 0 < v) (hq : q ≤ 1 / 2)
    (hfa : f q v ≤ a) (ha : a ≤ v / 4) :
    q ≤ (1 - Real.sqrt (1 - 4 * a / v)) / 2 := by
  have hfs : f ((1 - Real.sqrt (1 - 4 * a / v)) / 2) v = a := qstar_dn_f v a hv ha
  by_contra hc
  push_neg at hc
  have key : 0 < v * (q - (1 - Real.sqrt (1 - 4 * a / v)) / 2) *
      (1 - q - (1 - Real.sqrt (1 - 4 * a / v)) / 2) :=
    mul_pos (mul_pos hv (by linarith)) (by linarith)
  have hlt : f ((1 - Real.sqrt (1 - 4 * a / v)) / 2) v < f q v := by
    unfold f at hfs ⊢
    nlinarith [key]
  linarith

/-- The evaluator-consistency property of C5 for a solution with left state
`q_l` and right state `q_r`: the evaluator is `q_l` strictly below all wave
speeds, `q_r` strictly above all of them, and its one-sided limits at `0`
are the states adjacent to any contact. -/
def C5Prop (q_l q_r : ℝ) (sol : RSolution) : Prop :=
  (∀ ξ, (∀ s ∈ sol.speeds, ξ < speedLo s) → sol.reval ξ = q_l) ∧
  (∀ ξ, (∀ s ∈ sol.speeds, speedHi s < ξ) → sol.reval ξ = q_r) ∧
  (∀ i, sol.wave_types.getD i .shock = .contact →
    Filter.Tendsto sol.reval (nhdsWithin 0 (Set.Iio 0)) (nhds (sol.states.getD i 0)) ∧
    Filter.Tendsto sol.reval (nhdsWithin 0 (Set.Ioi 0)) (nhds (sol.states.getD (i + 1) 0)))

theorem r1_left (q_l qs q_r ss ξ : ℝ) (h1 : ξ ≤ ss) (h2 : ξ < 0) :
    ind (ξ ≤ ss) * q_l + ind (ss < ξ) * ind (ξ ≤ 0) * qs + ind (0 ≤ ξ) * q_r = q_l := by
  rw [ind_pos h1, ind_neg (not_lt.mpr h1), ind_neg (not_le.mpr h2)]
  ring

theorem r1_mid (q_l qs q_r ss ξ : ℝ) (h1 : ss < ξ) (h2 : ξ < 0) :
    ind (ξ ≤ ss) * q_l + ind (ss < ξ) * ind (ξ ≤ 0) * qs + ind (0 ≤ ξ) * q_r = qs := by
  rw [ind_neg (not_le.mpr h1), ind_pos h1, ind_pos h2.le, ind_neg (not_le.mpr h2)]
  ring

theorem r1_right (q_l qs q_r ss ξ : ℝ) (hss : ss < 0) (h1 : 0 < ξ) :
    ind (ξ ≤ ss) * q_l + ind (ss < ξ) * ind (ξ ≤ 0) * qs + ind (0 ≤ ξ) * q_r = q_r := by
  rw [ind_neg (not_le.mpr (lt_trans hss h1)), ind_neg (not_le.mpr h1), ind_pos h1.le]
  ring

theorem r2_left (q_l qs q_r ss ξ : ℝ) (hss : 0 < ss) (h1 : ξ ≤ 0) :
    ind (ξ ≤ 0) * q_l + ind (0 < ξ) * ind (ξ ≤ ss) * qs + ind (ss ≤ ξ) * q_r = q_l := by
  rw [ind_pos h1, ind_neg (not_lt.mpr h1), ind_neg (not_le.mpr (lt_of_le_of_lt h1 hss))]
  ring

theorem r2_mid (q_l qs q_r ss ξ : ℝ) (h1 : 0 < ξ) (h2 : ξ < ss) :
    ind (ξ ≤ 0) * q_l + ind (0 < ξ) * ind (ξ ≤ ss) * qs + ind (ss ≤ ξ) * q_r = qs := by
  rw [ind_neg (not_le.mpr h1), ind_pos h1, ind_pos h2.le, ind_neg (not_le.mpr h2)]
  ring

theorem r2_right (q_l qs q_r ss ξ : ℝ) (hss : 0 < ss) (h1 : ss < ξ) :
    ind (ξ ≤ 0) * q_l + ind (0 < ξ) * ind (ξ ≤ ss) * qs + ind (ss ≤ ξ) * q_r = q_r := by
  rw [ind_neg (not_le.mpr (lt_trans hss h1)), ind_neg (not_le.mpr h1), ind_pos h1.le]
  ring

theorem r3_left (q_l qs q_r v cr ss ξ : ℝ) (h1 : ξ ≤ ss) (h2 : ξ < 0) (hcr : 0 ≤ cr) :
    ind (ξ ≤ ss) * q_l + ind (ss < ξ) * ind (ξ ≤ 0) * qs
      + ind (0 < ξ) * ind (ξ < cr) * ((1 - ξ / v) / 2) + ind (cr ≤ ξ) * q_r = q_l := by
  rw [ind_pos h1, ind_neg (not_lt.mpr h1), ind_neg (not_lt.mpr h2.le),
    ind_neg (not_le.mpr (lt_of_lt_of_le h2 hcr))]
  ring

theorem r3_mid (q_l qs q_r v cr ss ξ : ℝ) (h1 : ss < ξ) (h2 : ξ < 0) (hcr : 0 ≤ cr) :
    ind (ξ ≤ ss) * q_l + ind (ss < ξ) * ind (ξ ≤ 0) * qs
      + ind (0 < ξ) * ind (ξ < cr) * ((1 - ξ / v) / 2) + ind (cr ≤ ξ) * q_r = qs := by
  rw [ind_neg (not_le.mpr h1), ind_pos h1, ind_pos h2.le, ind_neg (not_lt.mpr h2.le),
    ind_neg (not_le.mpr (lt_of_lt_of_le h2 hcr))]
  ring

theorem r3_prof (q_l qs q_r v cr ss ξ : ℝ) (hss : ss < 0) (h1 : 0 < ξ) (h2 : ξ < cr) :
    ind (ξ ≤ ss) * q_l + ind (ss < ξ) * ind (ξ ≤ 0) * qs
      + ind (0 < ξ) * ind (ξ < cr) * ((1 - ξ / v) / 2) + ind (cr ≤ ξ) * q_r
      = (1 - ξ / v) / 2 := by
  rw [ind_neg (not_le.mpr (lt_trans hss h1)), ind_neg (not_le.mpr h1), ind_pos h1,
    ind_pos h2, ind_neg (not_le.mpr h2)]
  ring

theorem r3_right (q_l qs q_r v cr ss ξ : ℝ) (hss : ss < 0) (h1 : 0 < ξ) (h2 : cr ≤ ξ) :
    ind (ξ ≤ ss) * q_l + ind (ss < ξ) * ind (ξ ≤ 0) * qs
      + ind (0 < ξ) * ind (ξ < cr) * ((1 - ξ / v) / 2) + ind (cr ≤ ξ) * q_r = q_r := by
  rw [ind_neg (not_le.mpr (lt_trans hss h1)), ind_neg (not_le.mpr h1),
    ind_neg (not_lt.mpr h2), ind_pos h2]
  ring

theorem r4_left (q_l qs q_r v cl ss ξ : ℝ) (h1 : ξ ≤ cl) (h2 : ξ < 0) (hss : 0 < ss) :
    ind (ξ ≤ cl) * q_l + ind (cl < ξ) * ind (ξ ≤ 0) * ((1 - ξ / v) / 2)
      + ind (0 < ξ) * ind (ξ ≤ ss) * qs + ind (ss < ξ) * q_r = q_l := by
  rw [ind_pos h1, ind_neg (not_lt.mpr h1), ind_neg (not_lt.mpr h2.le),
    ind_neg (not_lt.mpr (lt_trans h2 hss).le)]
  ring

theorem r4_prof (q_l qs q_r v cl ss ξ : ℝ) (h1 : cl < ξ) (h2 : ξ ≤ 0) (hss : 0 < ss) :
    ind (ξ ≤ cl) * q_l + ind (cl < ξ) * ind (ξ ≤ 0) * ((1 - ξ / v) / 2)
      + ind (0 < ξ) * ind (ξ ≤ ss) * qs + ind (ss < ξ) * q_r = (1 - ξ / v) / 2 := by
  rw [ind_neg (not_le.mpr h1), ind_pos h1, ind_pos h2, ind_neg (not_lt.mpr h2),
    ind_neg (not_lt.mpr (lt_of_le_of_lt h2 hss).le)]
  ring

theorem r4_mid (q_l qs q_r v cl ss ξ : ℝ) (hcl : cl ≤ 0) (h1 : 0 < ξ) (h2 : ξ ≤ ss) :
    ind (ξ ≤ cl) * q_l + ind (cl < ξ) * ind (ξ ≤ 0) * ((1 - ξ / v) / 2)
      + ind (0 < ξ) * ind (ξ ≤ ss) * qs + ind (ss < ξ) * q_r = qs := by
  rw [ind_neg (not_le.mpr (lt_of_le_of_lt hcl h1)), ind_neg (not_le.mpr h1), ind_pos h1,
    ind_pos h2, ind_neg (not_lt.mpr h2)]
  ring

theorem r4_right (q_l qs q_r v cl ss ξ : ℝ) (hcl : cl ≤ 0) (hss : 0 < ss) (h1 : ss < ξ) :
    ind (ξ ≤ cl) * q_l + ind (cl < ξ) * ind (ξ ≤ 0) * ((1 - ξ / v) / 2)
      + ind (0 < ξ) * ind (ξ ≤ ss) * qs + ind (ss < ξ) * q_r = q_r := by
  have h0 : 0 < ξ := lt_trans hss h1
  rw [ind_neg (not_le.mpr (lt_of_le_of_lt hcl h0)), ind_neg (not_le.mpr h0),
    ind_neg (not_le.mpr h1), ind_pos h1]
  ring

set_option maxHeartbeats 1000000 in
theorem c5_branch1 (q_l q_r v_l v_r : ℝ) (hvl : 0 < v_l)
    (hg : f q_r v_r < f q_l v_l ∧ 1 / 2 < q_r) :
    C5Prop q_l q_r (branch1 q_l q_r v_l v_r) := by
  have hq := qstar_up_gt v_l (f q_r v_r) q_l hvl hg.1
  have hss : (f q_r v_r - f q_l v_l) /
      ((1 + Real.sqrt (1 - 4 * f q_r v_r / v_l)) / 2 - q_l) < 0 :=
    div_neg_of_neg_of_pos (by linarith [hg.1]) (by linarith)
  refine ⟨?_, ?_, ?_⟩
  · intro ξ hξ
    simp only [branch1, List.mem_cons, List.not_mem_nil, or_false, forall_eq_or_imp, forall_eq, speedLo] at hξ
    obtain ⟨h1, h2⟩ := hξ
    simp only [branch1]
    exact r1_left _ _ _ _ _ h1.le h2
  · intro ξ hξ
    simp only [branch1, List.mem_cons, List.not_mem_nil, or_false, forall_eq_or_imp, forall_eq, speedHi] at hξ
    obtain ⟨h1, h2⟩ := hξ
    simp only [branch1]
    exact r1_right _ _ _ _ _ hss h2
  · intro i hc
    rcases i with _ | _ | i
    · simp [branch1] at hc
    · constructor
      · simp only [branch1, List.getD_cons_succ, List.getD_cons_zero]
        apply tendsto_left_const _ _ _ hss
        intro ξ h1 h2
        exact r1_mid _ _ _ _ _ h1 h2
      · simp only [branch1, List.getD_cons_succ, List.getD_cons_zero]
        apply tendsto_right_const _ _ 1 one_pos
        intro ξ h1 h2
        exact r1_right _ _ _ _ _ hss h1
    · simp [branch1] at hc

set_option maxHeartbeats 1000000 in
theorem c5_branch2 (q_l q_r v_l v_r : ℝ) (hvr : 0 < v_r)
    (hg : f q_l v_l < f q_r v_r ∧ q_l < 1 / 2) :
    C5Prop q_l q_r (branch2 q_l q_r v_l v_r) := by
  have hq := qstar_dn_lt v_r (f q_l v_l) q_r hvr hg.1
  have hss : 0 < (f q_r v_r - f q_l v_l) /
      (q_r - (1 - Real.sqrt (1 - 4 * f q_l v_l / v_r)) / 2) :=
    div_pos (by linarith [hg.1]) (by linarith)
  refine ⟨?_, ?_, ?_⟩
  · intro ξ hξ
    simp only [branch2, List.mem_cons, List.not_mem_nil, or_false, forall_eq_or_imp, forall_eq, speedLo] at hξ
    obtain ⟨h1, h2⟩ := hξ
    simp only [branch2]
    exact r2_left _ _ _ _ _ hss h1.le
  · intro ξ hξ
    simp only [branch2, List.mem_cons, List.not_mem_nil, or_false, forall_eq_or_imp, forall_eq, speedHi] at hξ
    obtain ⟨h1, h2⟩ := hξ
    simp only [branch2]
    exact r2_right _ _ _ _ _ hss h2
  · intro i hc
    rcases i with _ | _ | i
    · constructor
      · simp only [branch2, List.getD_cons_succ, List.getD_cons_zero]
        apply tendsto_left_const _ _ (-1) (by norm_num)
        intro ξ h1 h2
        exact r2_left _ _ _ _ _ hss h2.le
      · simp only [branch2, List.getD_cons_succ, List.getD_cons_zero]
        apply tendsto_right_const _ _ _ hss
        intro ξ h1 h2
        exact r2_mid _ _ _ _ _ h1 h2
    · simp [branch2] at hc
    · simp [branch2] at hc

set_option maxHeartbeats 1000000 in
theorem c5_branch3 (q_l q_r v_l v_r : ℝ) (hvl : 0 < v_l) (hvr : 0 < v_r)
    (hg : v_r / 4 < f q_l v_l ∧ q_r ≤ 1 / 2) :
    C5Prop q_l q_r (branch3 q_l q_r v_l v_r) := by
  have hq := qstar_up_gt v_l (v_r / 4) q_l hvl hg.1
  rw [show (1 - 4 * (v_r / 4) / v_l : ℝ) = 1 - v_r / v_l by ring] at hq
  have hss : -(f q_l v_l - v_r / 4) /
      ((1 + Real.sqrt (1 - v_r / v_l)) / 2 - q_l) < 0 :=
    div_neg_of_neg_of_pos (by linarith [hg.1]) (by linarith)
  have hcr : 0 ≤ c q_r v_r := by
    unfold c
    exact mul_nonneg hvr.le (by linarith [hg.2])
  refine ⟨?_, ?_, ?_⟩
  · intro ξ hξ
    simp only [branch3, List.mem_cons, List.not_mem_nil, or_false, forall_eq_or_imp, forall_eq, speedLo] at hξ
    obtain ⟨h1, h2, h3⟩ := hξ
    simp only [branch3]
    exact r3_left _ _ _ _ _ _ _ h1.le h2 hcr
  · intro ξ hξ
    simp only [branch3, List.mem_cons, List.not_mem_nil, or_false, forall_eq_or_imp, forall_eq, speedHi] at hξ
    obtain ⟨h1, h2, h3⟩ := hξ
    simp only [branch3]
    exact r3_right _ _ _ _ _ _ _ hss h2 h3.le
  · intro i hc
    rcases i with _ | _ | _ | i
    · simp [branch3] at hc
    · constructor
      · simp only [branch3, List.getD_cons_succ, List.getD_cons_zero]
        apply tendsto_left_const _ _ _ hss
        intro ξ h1 h2
        exact r3_mid _ _ _ _ _ _ _ h1 h2 hcr
      · simp only [branch3, List.getD_cons_succ, List.getD_cons_zero]
        rcases eq_or_lt_of_le hg.2 with heq | hlt
        · have hcr0 : c q_r v_r = 0 := by
            unfold c
            rw [heq]
            ring
          apply tendsto_right_const _ _ 1 one_pos
          intro ξ h1 h2
          rw [show (1 / 2 : ℝ) = q_r from heq.symm]
          exact r3_right _ _ _ _ _ _ _ hss h1 (by rw [hcr0]; exact h1.le)
        · have hcr' : 0 < c q_r v_r := by
            unfold c
            exact mul_pos hvr (by linarith)
          apply tendsto_right_lin _ _ _ hcr'
          intro ξ h1 h2
          exact r3_prof _ _ _ _ _ _ _ hss h1 h2
    · simp [branch3] at hc
    · simp [branch3] at hc

set_option maxHeartbeats 1000000 in
theorem c5_branch4 (q_l q_r v_l v_r : ℝ) (hvl : 0 < v_l) (hvr : 0 < v_r)
    (hg : v_l / 4 < f q_r v_r ∧ 1 / 2 ≤ q_l) :
    C5Prop q_l q_r (branch4 q_l q_r v_l v_r) := by
  have hq := qstar_dn_lt v_r (v_l / 4) q_r hvr hg.1
  rw [show (1 - 4 * (v_l / 4) / v_r : ℝ) = 1 - v_l / v_r by ring] at hq
  have hss : 0 < (f q_r v_r - v_l / 4) /
      (q_r - (1 - Real.sqrt (1 - v_l / v_r)) / 2) :=
    div_pos (by linarith [hg.1]) (by linarith)
  have hcl : c q_l v_l ≤ 0 := by
    unfold c
    exact mul_nonpos_of_nonneg_of_nonpos hvl.le (by linarith [hg.2])
  refine ⟨?_, ?_, ?_⟩
  · intro ξ hξ
    simp only [branch4, List.mem_cons, List.not_mem_nil, or_false, forall_eq_or_imp, forall_eq, speedLo] at hξ
    obtain ⟨h1, h2, h3⟩ := hξ
    simp only [branch4]
    exact r4_left _ _ _ _ _ _ _ h1.le h2 hss
  · intro ξ hξ
    simp only [branch4, List.mem_cons, List.not_mem_nil, or_false, forall_eq_or_imp, forall_eq, speedHi] at hξ
    obtain ⟨h1, h2, h3⟩ := hξ
    simp only [branch4]
    exact r4_right _ _ _ _ _ _ _ hcl hss h3
  · intro i hc
    rcases i with _ | _ | _ | i
    · simp [branch4] at hc
    · constructor
      · simp only [branch4, List.getD_cons_succ, List.getD_cons_zero]
        rcases eq_or_lt_of_le hg.2 with heq | hlt
        · have hcl0 : c q_l v_l = 0 := by
            unfold c
            rw [← heq]
            ring
          apply tendsto_left_const _ _ (-1) (by norm_num)
          intro ξ h1 h2
          rw [show (1 / 2 : ℝ) = q_l from heq]
          exact r4_left _ _ _ _ _ _ _ (by rw [hcl0]; exact h2.le) h2 hss
        · have hcl' : c q_l v_l < 0 := by
            unfold c
            exact mul_neg_of_pos_of_neg hvl (by linarith)
          apply tendsto_left_lin _ _ _ hcl'
          intro ξ h1 h2
          exact r4_prof _ _ _ _ _ _ _ h1 h2.le hss
      · simp only [branch4, List.getD_cons_succ, List.getD_cons_zero]
        apply tendsto_right_const _ _ _ hss
        intro ξ h1 h2
        exact r4_mid _ _ _ _ _ _ _ hcl h1 h2.le
    · simp [branch4] at hc
    · simp [branch4] at hc

theorem r6_left (q_l qs q_r v cl cs ξ : ℝ) (h1 : ξ ≤ cl) (hcs : cl ≤ cs) (h2 : ξ < 0) :
    ind (ξ ≤ cl) * q_l + ind (cl < ξ) * ind (ξ ≤ cs) * ((1 - ξ / v) / 2)
      + ind (cs < ξ) * ind (ξ ≤ 0) * qs + ind (0 ≤ ξ) * q_r = q_l := by
  rw [ind_pos h1, ind_neg (not_lt.mpr h1), ind_neg (not_lt.mpr (le_trans h1 hcs)),
    ind_neg (not_le.mpr h2)]
  ring

theorem r6_prof (q_l qs q_r v cl cs ξ : ℝ) (h1 : cl < ξ) (h2 : ξ ≤ cs) (h3 : ξ < 0) :
    ind (ξ ≤ cl) * q_l + ind (cl < ξ) * ind (ξ ≤ cs) * ((1 - ξ / v) / 2)
      + ind (cs < ξ) * ind (ξ ≤ 0) * qs + ind (0 ≤ ξ) * q_r = (1 - ξ / v) / 2 := by
  rw [ind_neg (not_le.mpr h1), ind_pos h1, ind_pos h2, ind_neg (not_lt.mpr h2),
    ind_neg (not_le.mpr h3)]
  ring

theorem r6_mid (q_l qs q_r v cl cs ξ : ℝ) (hcs : cl ≤ cs) (h1 : cs < ξ) (h2 : ξ < 0) :
    ind (ξ ≤ cl) * q_l + ind (cl < ξ) * ind (ξ ≤ cs) * ((1 - ξ / v) / 2)
      + ind (cs < ξ) * ind (ξ ≤ 0) * qs + ind (0 ≤ ξ) * q_r = qs := by
  rw [ind_neg (not_le.mpr (lt_of_le_of_lt hcs h1)), ind_neg (not_le.mpr h1), ind_pos h1,
    ind_pos h2.le, ind_neg (not_le.mpr h2)]
  ring

theorem r6_right (q_l qs q_r v cl cs ξ : ℝ) (hcl : cl ≤ 0) (hcs : cs ≤ 0) (h1 : 0 < ξ) :
    ind (ξ ≤ cl) * q_l + ind (cl < ξ) * ind (ξ ≤ cs) * ((1 - ξ / v) / 2)
      + ind (cs < ξ) * ind (ξ ≤ 0) * qs + ind (0 ≤ ξ) * q_r = q_r := by
  rw [ind_neg (not_le.mpr (lt_of_le_of_lt hcl h1)), ind_neg (not_le.mpr (lt_of_le_of_lt hcs h1)),
    ind_neg (not_le.mpr h1), ind_pos h1.le]
  ring

theorem r7_left (q_l qs q_r v cs cr ξ : ℝ) (hcs : 0 ≤ cs) (hcr : 0 < cr) (h1 : ξ ≤ 0) :
    ind (ξ ≤ 0) * q_l + ind (0 < ξ) * ind (ξ ≤ cs) * qs
      + ind (cs < ξ) * ind (ξ ≤ cr) * ((1 - ξ / v) / 2) + ind (cr ≤ ξ) * q_r = q_l := by
  rw [ind_pos h1, ind_neg (not_lt.mpr h1), ind_neg (not_lt.mpr (le_trans h1 hcs)),
    ind_neg (not_le.mpr (lt_of_le_of_lt h1 hcr))]
  ring

theorem r7_mid (q_l qs q_r v cs cr ξ : ℝ) (h1 : 0 < ξ) (h2 : ξ ≤ cs) (h3 : ξ < cr) :
    ind (ξ ≤ 0) * q_l + ind (0 < ξ) * ind (ξ ≤ cs) * qs
      + ind (cs < ξ) * ind (ξ ≤ cr) * ((1 - ξ / v) / 2) + ind (cr ≤ ξ) * q_r = qs := by
  rw [ind_neg (not_le.mpr h1), ind_pos h1, ind_pos h2, ind_neg (not_lt.mpr h2),
    ind_neg (not_le.mpr h3)]
  ring

theorem r7_prof (q_l qs q_r v cs cr ξ : ℝ) (hcs : 0 ≤ cs) (h1 : cs < ξ) (h2 : ξ < cr) :
    ind (ξ ≤ 0) * q_l + ind (0 < ξ) * ind (ξ ≤ cs) * qs
      + ind (cs < ξ) * ind (ξ ≤ cr) * ((1 - ξ / v) / 2) + ind (cr ≤ ξ) * q_r
      = (1 - ξ / v) / 2 := by
  have h0 : 0 < ξ := lt_of_le_of_lt hcs h1
  rw [ind_neg (not_le.mpr h0), ind_neg (not_le.mpr h1), ind_pos h1, ind_pos h2.le,
    ind_neg (not_le.mpr h2)]
  ring

theorem r7_right (q_l qs q_r v cs cr ξ : ℝ) (hcs : 0 ≤ cs) (hcr : cs ≤ cr) (h1 : cr < ξ) :
    ind (ξ ≤ 0) * q_l + ind (0 < ξ) * ind (ξ ≤ cs) * qs
      + ind (cs < ξ) * ind (ξ ≤ cr) * ((1 - ξ / v) / 2) + ind (cr ≤ ξ) * q_r = q_r := by
  have h0 : 0 < ξ := lt_of_le_of_lt (le_trans hcs hcr) h1
  rw [ind_neg (not_le.mpr h0), ind_neg (not_le.mpr (lt_of_le_of_lt hcr h1)),
    ind_neg (not_le.mpr h1), ind_pos h1.le]
  ring

theorem r5a_left (q_l qs q_r vl vr cl cs cr ξ : ℝ) (h1 : ξ ≤ cl) (hcs : cl ≤ cs)
    (h2 : ξ < 0) (hcr : 0 ≤ cr) :
    ind (ξ ≤ cl) * q_l + ind (cl < ξ) * ind (ξ ≤ cs) * ((1 - ξ / vl) / 2)
      + ind (cs < ξ) * ind (ξ ≤ 0) * qs + ind (0 < ξ) * ind (ξ ≤ cr) * ((1 - ξ / vr) / 2)
      + ind (cr < ξ) * q_r = q_l := by
  rw [ind_pos h1, ind_neg (not_lt.mpr h1), ind_neg (not_lt.mpr (le_trans h1 hcs)),
    ind_neg (not_lt.mpr h2.le), ind_neg (not_lt.mpr (le_trans h2.le hcr))]
  ring

theorem r5a_mid (q_l qs q_r vl vr cl cs cr ξ : ℝ) (hcs : cl ≤ cs) (h1 : cs < ξ)
    (h2 : ξ ≤ 0) (hcr : 0 ≤ cr) :
    ind (ξ ≤ cl) * q_l + ind (cl < ξ) * ind (ξ ≤ cs) * ((1 - ξ / vl) / 2)
      + ind (cs < ξ) * ind (ξ ≤ 0) * qs + ind (0 < ξ) * ind (ξ ≤ cr) * ((1 - ξ / vr) / 2)
      + ind (cr < ξ) * q_r = qs := by
  rw [ind_neg (not_le.mpr (lt_of_le_of_lt hcs h1)), ind_neg (not_le.mpr h1), ind_pos h1,
    ind_pos h2, ind_neg (not_lt.mpr h2), ind_neg (not_lt.mpr (le_trans h2 hcr))]
  ring

theorem r5a_profR (q_l qs q_r vl vr cl cs cr ξ : ℝ) (hcl : cl ≤ 0) (hcs : cs ≤ 0)
    (h1 : 0 < ξ) (h2 : ξ ≤ cr) :
    ind (ξ ≤ cl) * q_l + ind (cl < ξ) * ind (ξ ≤ cs) * ((1 - ξ / vl) / 2)
      + ind (cs < ξ) * ind (ξ ≤ 0) * qs + ind (0 < ξ) * ind (ξ ≤ cr) * ((1 - ξ / vr) / 2)
      + ind (cr < ξ) * q_r = (1 - ξ / vr) / 2 := by
  rw [ind_neg (not_le.mpr (lt_of_le_of_lt hcl h1)), ind_neg (not_le.mpr (lt_of_le_of_lt hcs h1)),
    ind_neg (not_le.mpr h1), ind_pos h1, ind_pos h2, ind_neg (not_lt.mpr h2)]
  ring

theorem r5a_right (q_l qs q_r vl vr cl cs cr ξ : ℝ) (hcl : cl ≤ 0) (hcs : cs ≤ 0)
    (hcr : 0 ≤ cr) (h1 : cr < ξ) :
    ind (ξ ≤ cl) * q_l + ind (cl < ξ) * ind (ξ ≤ cs) * ((1 - ξ / vl) / 2)
      + ind (cs < ξ) * ind (ξ ≤ 0) * qs + ind (0 < ξ) * ind (ξ ≤ cr) * ((1 - ξ / vr) / 2)
      + ind (cr < ξ) * q_r = q_r := by
  have h0 : 0 < ξ := lt_of_le_of_lt hcr h1
  rw [ind_neg (not_le.mpr (lt_of_le_of_lt hcl h0)), ind_neg (not_le.mpr (lt_of_le_of_lt hcs h0)),
    ind_neg (not_le.mpr h0), ind_neg (not_le.mpr h1), ind_pos h1]
  ring

theorem r5b_left (q_l qs q_r vl vr cl cs cr ξ : ℝ) (h1 : ξ ≤ cl) (h2 : ξ < 0)
    (hcs : 0 ≤ cs) (hcr : cs ≤ cr) :
    ind (ξ ≤ cl) * q_l + ind (cl < ξ) * ind (ξ ≤ 0) * ((1 - ξ / vl) / 2)
      + ind (0 < ξ) * ind (ξ ≤ cs) * qs + ind (cs < ξ) * ind (ξ ≤ cr) * ((1 - ξ / vr) / 2)
      + ind (cr < ξ) * q_r = q_l := by
  rw [ind_pos h1, ind_neg (not_lt.mpr h1), ind_neg (not_lt.mpr h2.le),
    ind_neg (not_lt.mpr (le_trans h2.le hcs)),
    ind_neg (not_lt.mpr (le_trans (le_trans h2.le hcs) hcr))]
  ring

theorem r5b_profL (q_l qs q_r vl vr cl cs cr ξ : ℝ) (h1 : cl < ξ) (h2 : ξ ≤ 0)
    (hcs : 0 ≤ cs) (hcr : cs ≤ cr) :
    ind (ξ ≤ cl) * q_l + ind (cl < ξ) * ind (ξ ≤ 0) * ((1 - ξ / vl) / 2)
      + ind (0 < ξ) * ind (ξ ≤ cs) * qs + ind (cs < ξ) * ind (ξ ≤ cr) * ((1 - ξ / vr) / 2)
      + ind (cr < ξ) * q_r = (1 - ξ / vl) / 2 := by
  rw [ind_neg (not_le.mpr h1), ind_pos h1, ind_pos h2, ind_neg (not_lt.mpr h2),
    ind_neg (not_lt.mpr (le_trans h2 hcs)),
    ind_neg (not_lt.mpr (le_trans (le_trans h2 hcs) hcr))]
  ring

theorem r5b_mid (q_l qs q_r vl vr cl cs cr ξ : ℝ) (hcl : cl ≤ 0) (h1 : 0 < ξ)
    (h2 : ξ ≤ cs) (hcr : cs ≤ cr) :
    ind (ξ ≤ cl) * q_l + ind (cl < ξ) * ind (ξ ≤ 0) * ((1 - ξ / vl) / 2)
      + ind (0 < ξ) * ind (ξ ≤ cs) * qs + ind (cs < ξ) * ind (ξ ≤ cr) * ((1 - ξ / vr) / 2)
      + ind (cr < ξ) * q_r = qs := by
  rw [ind_neg (not_le.mpr (lt_of_le_of_lt hcl h1)), ind_neg (not_le.mpr h1), ind_pos h1,
    ind_pos h2, ind_neg (not_lt.mpr h2), ind_neg (not_lt.mpr (le_trans h2 hcr))]
  ring

theorem r5b_right (q_l qs q_r vl vr cl cs cr ξ : ℝ) (hcl : cl ≤ 0) (hcs : 0 ≤ cs)
    (hcr : cs ≤ cr) (h1 : cr < ξ) :
    ind (ξ ≤ cl) * q_l + ind (cl < ξ) * ind (ξ ≤ 0) * ((1 - ξ / vl) / 2)
      + ind (0 < ξ) * ind (ξ ≤ cs) * qs + ind (cs < ξ) * ind (ξ ≤ cr) * ((1 - ξ / vr) / 2)
      + ind (cr < ξ) * q_r = q_r := by
  have h0 : 0 < ξ := lt_of_le_of_lt (le_trans hcs hcr) h1
  rw [ind_neg (not_le.mpr (lt_of_le_of_lt hcl h0)), ind_neg (not_le.mpr h0),
    ind_neg (not_le.mpr (lt_of_le_of_lt hcr h1)), ind_neg (not_le.mpr h1), ind_pos h1]
  ring

theorem r5c_left (q_l q_r v cl cr ξ : ℝ) (h1 : ξ ≤ cl) (hlr : cl ≤ cr) :
    ind (ξ ≤ cl) * q_l + ind (cl < ξ) * ind (ξ ≤ cr) * ((1 - ξ / v) / 2)
      + ind (cr < ξ) * q_r = q_l := by
  rw [ind_pos h1, ind_neg (not_lt.mpr h1), ind_neg (not_lt.mpr (le_trans h1 hlr))]
  ring

theorem r5c_right (q_l q_r v cl cr ξ : ℝ) (hlr : cl ≤ cr) (h1 : cr < ξ) :
    ind (ξ ≤ cl) * q_l + ind (cl < ξ) * ind (ξ ≤ cr) * ((1 - ξ / v) / 2)
      + ind (cr < ξ) * q_r = q_r := by
  rw [ind_neg (not_le.mpr (lt_of_le_of_lt hlr h1)), ind_neg (not_le.mpr h1), ind_pos h1]
  ring

set_option maxHeartbeats 1000000 in
theorem c5_branch6 (q_l q_r v_l v_r : ℝ) (hvl : 0 < v_l)
    (hg : (f q_l v_l < f q_r v_r ∧ f q_r v_r ≤ v_l / 4) ∧ 1 / 2 < q_l ∧ 1 / 2 ≤ q_r) :
    C5Prop q_l q_r (branch6 q_l q_r v_l v_r) := by
  have hs0 := Real.sqrt_nonneg (1 - 4 * f q_r v_r / v_l)
  have hqs_le : (1 + Real.sqrt (1 - 4 * f q_r v_r / v_l)) / 2 ≤ q_l :=
    qstar_up_le v_l (f q_r v_r) q_l hvl hg.2.1.le hg.1.1.le hg.1.2
  have hcl : c q_l v_l < 0 := by
    unfold c
    exact mul_neg_of_pos_of_neg hvl (by linarith [hg.2.1])
  have hstar0 : c ((1 + Real.sqrt (1 - 4 * f q_r v_r / v_l)) / 2) v_l ≤ 0 := by
    unfold c
    nlinarith [mul_nonneg hvl.le hs0]
  have hcls : c q_l v_l ≤ c ((1 + Real.sqrt (1 - 4 * f q_r v_r / v_l)) / 2) v_l := by
    unfold c
    nlinarith [mul_nonneg hvl.le (sub_nonneg.mpr hqs_le)]
  refine ⟨?_, ?_, ?_⟩
  · intro ξ hξ
    simp only [branch6, List.mem_cons, List.not_mem_nil, or_false, forall_eq_or_imp,
      forall_eq, speedLo] at hξ
    obtain ⟨h1, h2⟩ := hξ
    simp only [branch6]
    exact r6_left _ _ _ _ _ _ _ h1.le hcls h2
  · intro ξ hξ
    simp only [branch6, List.mem_cons, List.not_mem_nil, or_false, forall_eq_or_imp,
      forall_eq, speedHi] at hξ
    obtain ⟨h1, h2⟩ := hξ
    simp only [branch6]
    exact r6_right _ _ _ _ _ _ _ hcl.le hstar0 h2
  · intro i hc
    rcases i with _ | _ | i
    · simp [branch6] at hc
    · constructor
      · simp only [branch6, List.getD_cons_succ, List.getD_cons_zero]
        rcases eq_or_lt_of_le hstar0 with heq | hlt
        · have hvs : v_l * Real.sqrt (1 - 4 * f q_r v_r / v_l) = 0 := by
            unfold c at heq
            linear_combination -heq
          have hs_eq : Real.sqrt (1 - 4 * f q_r v_r / v_l) = 0 := by
            rcases mul_eq_zero.mp hvs with h | h
            · exact absurd h (ne_of_gt hvl)
            · exact h
          apply tendsto_left_lin2 _ v_l _ _ hcl (by rw [hs_eq]; norm_num)
          intro ξ h1 h2
          exact r6_prof _ _ _ _ _ _ _ h1 (by rw [heq]; exact h2.le) h2
        · apply tendsto_left_const _ _ _ hlt
          intro ξ h1 h2
          exact r6_mid _ _ _ _ _ _ _ hcls h1 h2
      · simp only [branch6, List.getD_cons_succ, List.getD_cons_zero]
        apply tendsto_right_const _ _ 1 one_pos
        intro ξ h1 h2
        exact r6_right _ _ _ _ _ _ _ hcl.le hstar0 h1
    · simp [branch6] at hc

set_option maxHeartbeats 1000000 in
theorem c5_branch7 (q_l q_r v_l v_r : ℝ) (hvr : 0 < v_r)
    (hg : (f q_r v_r < f q_l v_l ∧ f q_l v_l ≤ v_r / 4) ∧ q_l ≤ 1 / 2 ∧ q_r < 1 / 2) :
    C5Prop q_l q_r (branch7 q_l q_r v_l v_r) := by
  have hs0 := Real.sqrt_nonneg (1 - 4 * f q_l v_l / v_r)
  have hqs_ge : q_r ≤ (1 - Real.sqrt (1 - 4 * f q_l v_l / v_r)) / 2 :=
    qstar_dn_ge v_r (f q_l v_l) q_r hvr hg.2.2.le hg.1.1.le hg.1.2
  have hcr : 0 < c q_r v_r := by
    unfold c
    exact mul_pos hvr (by linarith [hg.2.2])
  have hstar0 : 0 ≤ c ((1 - Real.sqrt (1 - 4 * f q_l v_l / v_r)) / 2) v_r := by
    unfold c
    nlinarith [mul_nonneg hvr.le hs0]
  have hscr : c ((1 - Real.sqrt (1 - 4 * f q_l v_l / v_r)) / 2) v_r ≤ c q_r v_r := by
    unfold c
    nlinarith [mul_nonneg hvr.le (sub_nonneg.mpr hqs_ge)]
  refine ⟨?_, ?_, ?_⟩
  · intro ξ hξ
    simp only [branch7, List.mem_cons, List.not_mem_nil, or_false, forall_eq_or_imp,
      forall_eq, speedLo] at hξ
    obtain ⟨h1, h2⟩ := hξ
    simp only [branch7]
    exact r7_left _ _ _ _ _ _ _ hstar0 hcr h1.le
  · intro ξ hξ
    simp only [branch7, List.mem_cons, List.not_mem_nil, or_false, forall_eq_or_imp,
      forall_eq, speedHi] at hξ
    obtain ⟨h1, h2⟩ := hξ
    simp only [branch7]
    exact r7_right _ _ _ _ _ _ _ hstar0 hscr h2
  · intro i hc
    rcases i with _ | _ | i
    · constructor
      · simp only [branch7, List.getD_cons_succ, List.getD_cons_zero]
        apply tendsto_left_const _ _ (-1) (by norm_num)
        intro ξ h1 h2
        exact r7_left _ _ _ _ _ _ _ hstar0 hcr h2.le
      · simp only [branch7, List.getD_cons_succ, List.getD_cons_zero]
        rcases eq_or_lt_of_le hstar0 with heq | hlt
        · have hvs : v_r * Real.sqrt (1 - 4 * f q_l v_l / v_r) = 0 := by
            unfold c at heq
            linear_combination -heq
          have hs_eq : Real.sqrt (1 - 4 * f q_l v_l / v_r) = 0 := by
            rcases mul_eq_zero.mp hvs with h | h
            · exact absurd h (ne_of_gt hvr)
            · exact h
          apply tendsto_right_lin2 _ v_r _ _ hcr (by rw [hs_eq]; norm_num)
          intro ξ h1 h2
          exact r7_prof _ _ _ _ _ _ _ hstar0 (by rw [← heq]; exact h1) h2
        · apply tendsto_right_const _ _ _ hlt
          intro ξ h1 h2
          exact r7_mid _ _ _ _ _ _ _ h1 h2.le (by linarith [hscr])
    · simp [branch7] at hc
    · simp [branch7] at hc

set_option maxHeartbeats 1000000 in
theorem c5_branch5a (q_l q_r v_l v_r : ℝ) (hvl : 0 < v_l) (hvr : 0 < v_r)
    (hg : 1 / 2 ≤ q_l ∧ q_r ≤ 1 / 2 ∧ f q_l v_l ≤ v_r / 4 ∧ f q_r v_r ≤ v_l / 4)
    (hvv : v_r < v_l) :
    C5Prop q_l q_r (branch5a q_l q_r v_l v_r) := by
  have hspos : 0 < Real.sqrt (1 - v_r / v_l) := by
    apply Real.sqrt_pos.mpr
    rw [sub_pos, div_lt_one hvl]
    exact hvv
  have hstar : c ((1 + Real.sqrt (1 - v_r / v_l)) / 2) v_l < 0 := by
    unfold c
    nlinarith [mul_pos hvl hspos]
  have hqs_le : (1 + Real.sqrt (1 - v_r / v_l)) / 2 ≤ q_l := by
    have h := qstar_up_le v_l (v_r / 4) q_l hvl hg.1 hg.2.2.1 (by linarith)
    rwa [show (1 - 4 * (v_r / 4) / v_l : ℝ) = 1 - v_r / v_l by ring] at h
  have hcls : c q_l v_l ≤ c ((1 + Real.sqrt (1 - v_r / v_l)) / 2) v_l := by
    unfold c
    nlinarith [mul_nonneg hvl.le (sub_nonneg.mpr hqs_le)]
  have hcl : c q_l v_l ≤ 0 := by
    unfold c
    exact mul_nonpos_of_nonneg_of_nonpos hvl.le (by linarith [hg.1])
  have hcr : 0 ≤ c q_r v_r := by
    unfold c
    exact mul_nonneg hvr.le (by linarith [hg.2.1])
  refine ⟨?_, ?_, ?_⟩
  · intro ξ hξ
    simp only [branch5a, List.mem_cons, List.not_mem_nil, or_false, forall_eq_or_imp,
      forall_eq, speedLo] at hξ
    obtain ⟨h1, h2, h3⟩ := hξ
    simp only [branch5a]
    exact r5a_left _ _ _ _ _ _ _ _ _ h1.le hcls h2 hcr
  · intro ξ hξ
    simp only [branch5a, List.mem_cons, List.not_mem_nil, or_false, forall_eq_or_imp,
      forall_eq, speedHi] at hξ
    obtain ⟨h1, h2, h3⟩ := hξ
    simp only [branch5a]
    exact r5a_right _ _ _ _ _ _ _ _ _ hcl hstar.le hcr h3
  · intro i hc
    rcases i with _ | _ | _ | i
    · simp [branch5a] at hc
    · constructor
      · simp only [branch5a, List.getD_cons_succ, List.getD_cons_zero]
        apply tendsto_left_const _ _ _ hstar
        intro ξ h1 h2
        exact r5a_mid _ _ _ _ _ _ _ _ _ hcls h1 h2.le hcr
      · simp only [branch5a, List.getD_cons_succ, List.getD_cons_zero]
        rcases eq_or_lt_of_le hg.2.1 with heq | hlt
        · have hcr0 : c q_r v_r = 0 := by
            unfold c
            rw [heq]
            ring
          apply tendsto_right_const _ _ 1 one_pos
          intro ξ h1 h2
          rw [show (1 / 2 : ℝ) = q_r from heq.symm]
          exact r5a_right _ _ _ _ _ _ _ _ _ hcl hstar.le hcr (by rw [hcr0]; exact h1)
        · have hcr' : 0 < c q_r v_r := by
            unfold c
            exact mul_pos hvr (by linarith)
          apply tendsto_right_lin _ _ _ hcr'
          intro ξ h1 h2
          exact r5a_profR _ _ _ _ _ _ _ _ _ hcl hstar.le h1 h2.le
    · simp [branch5a] at hc
    · simp [branch5a] at hc

set_option maxHeartbeats 1000000 in
theorem c5_branch5b (q_l q_r v_l v_r : ℝ) (hvl : 0 < v_l) (hvr : 0 < v_r)
    (hg : 1 / 2 ≤ q_l ∧ q_r ≤ 1 / 2 ∧ f q_l v_l ≤ v_r / 4 ∧ f q_r v_r ≤ v_l / 4)
    (hvv : v_l < v_r) :
    C5Prop q_l q_r (branch5b q_l q_r v_l v_r) := by
  have hspos : 0 < Real.sqrt (1 - v_l / v_r) := by
    apply Real.sqrt_pos.mpr
    rw [sub_pos, div_lt_one hvr]
    exact hvv
  have hstar : 0 < c ((1 - Real.sqrt (1 - v_l / v_r)) / 2) v_r := by
    unfold c
    nlinarith [mul_pos hvr hspos]
  have hqs_ge : q_r ≤ (1 - Real.sqrt (1 - v_l / v_r)) / 2 := by
    have h := qstar_dn_ge v_r (v_l / 4) q_r hvr hg.2.1 hg.2.2.2 (by linarith)
    rwa [show (1 - 4 * (v_l / 4) / v_r : ℝ) = 1 - v_l / v_r by ring] at h
  have hscr : c ((1 - Real.sqrt (1 - v_l / v_r)) / 2) v_r ≤ c q_r v_r := by
    unfold c
    nlinarith [mul_nonneg hvr.le (sub_nonneg.mpr hqs_ge)]
  have hcl : c q_l v_l ≤ 0 := by
    unfold c
    exact mul_nonpos_of_nonneg_of_nonpos hvl.le (by linarith [hg.1])
  refine ⟨?_, ?_, ?_⟩
  · intro ξ hξ
    simp only [branch5b, List.mem_cons, List.not_mem_nil, or_false, forall_eq_or_imp,
      forall_eq, speedLo] at hξ
    obtain ⟨h1, h2, h3⟩ := hξ
    simp only [branch5b]
    exact r5b_left _ _ _ _ _ _ _ _ _ h1.le h2 hstar.le hscr
  · intro ξ hξ
    simp only [branch5b, List.mem_cons, List.not_mem_nil, or_false, forall_eq_or_imp,
      forall_eq, speedHi] at hξ
    obtain ⟨h1, h2, h3⟩ := hξ
    simp only [branch5b]
    exact r5b_right _ _ _ _ _ _ _ _ _ hcl hstar.le hscr h3
  · intro i hc
    rcases i with _ | _ | _ | i
    · simp [branch5b] at hc
    · constructor
      · simp only [branch5b, List.getD_cons_succ, List.getD_cons_zero]
        rcases eq_or_lt_of_le hg.1 with heq | hlt
        · have hcl0 : c q_l v_l = 0 := by
            unfold c
            rw [← heq]
            ring
          apply tendsto_left_const _ _ (-1) (by norm_num)
          intro ξ h1 h2
          rw [show (1 / 2 : ℝ) = q_l from heq]
          exact r5b_left _ _ _ _ _ _ _ _ _ (by rw [hcl0]; exact h2.le) h2 hstar.le hscr
        · have hcl' : c q_l v_l < 0 := by
            unfold c
            exact mul_neg_of_pos_of_neg hvl (by linarith)
          apply tendsto_left_lin _ _ _ hcl'
          intro ξ h1 h2
          exact r5b_profL _ _ _ _ _ _ _ _ _ h1 h2.le hstar.le hscr
      · simp only [branch5b, List.getD_cons_succ, List.getD_cons_zero]
        apply tendsto_right_const _ _ _ hstar
        intro ξ h1 h2
        exact r5b_mid _ _ _ _ _ _ _ _ _ hcl h1 h2.le hscr
    · simp [branch5b] at hc
    · simp [branch5b] at hc

set_option maxHeartbeats 1000000 in
theorem c5_branch5c (q_l q_r v_l v_r : ℝ) (hvl : 0 < v_l) (hvr : 0 < v_r)
    (hg : 1 / 2 ≤ q_l ∧ q_r ≤ 1 / 2 ∧ f q_l v_l ≤ v_r / 4 ∧ f q_r v_r ≤ v_l / 4) :
    C5Prop q_l q_r (branch5c q_l q_r v_l v_r) := by
  have hcl : c q_l v_l ≤ 0 := by
    unfold c
    exact mul_nonpos_of_nonneg_of_nonpos hvl.le (by linarith [hg.1])
  have hcr : 0 ≤ c q_r v_r := by
    unfold c
    exact mul_nonneg hvr.le (by linarith [hg.2.1])
  have hlr : c q_l v_l ≤ c q_r v_r := le_trans hcl hcr
  refine ⟨?_, ?_, ?_⟩
  · intro ξ hξ
    simp only [branch5c, List.mem_cons, List.not_mem_nil, or_false, forall_eq_or_imp,
      forall_eq, speedLo] at hξ
    simp only [branch5c]
    exact r5c_left _ _ _ _ _ _ hξ.le hlr
  · intro ξ hξ
    simp only [branch5c, List.mem_cons, List.not_mem_nil, or_false, forall_eq_or_imp,
      forall_eq, speedHi] at hξ
    simp only [branch5c]
    exact r5c_right _ _ _ _ _ _ hlr hξ
  · intro i hc
    rcases i with _ | i <;> simp [branch5c] at hc

/-- C5 (amended): for every valid input with `f_l ≠ f_r` on which the solver
returns, the evaluator returns `q_l` at every `ξ` strictly below all wave
speeds, returns `q_r` at every `ξ` strictly above all of them, and its
one-sided limits at `ξ = 0` are the two states adjacent to any contact wave
(the `f_l = f_r` branch is excluded: there the evaluator is the constant
`q_l` by convention, refuting the original claim). -/
theorem claim_c5_amended (q_l q_r v_l v_r : ℝ)
    (hql0 : 0 ≤ q_l) (hql1 : q_l ≤ 1) (hqr0 : 0 ≤ q_r) (hqr1 : q_r ≤ 1)
    (hvl : 0 < v_l) (hvr : 0 < v_r)
    (hne : f q_l v_l ≠ f q_r v_r)
    (sol : RSolution) (h : exact_riemann_solution q_l q_r v_l v_r = .ok sol) :
    C5Prop q_l q_r sol := by
  rcases solve_branches q_l q_r v_l v_r with
    ⟨hg, hs⟩ | ⟨hg, hs⟩ | ⟨hg, hs⟩ | ⟨hg, hs⟩ | ⟨hg, hs⟩ | ⟨hg, hs⟩ | ⟨hg, hs⟩ |
    ⟨hg, hvv, hs⟩ | ⟨hg, hvv, hs⟩ | ⟨hg, hvv, hs⟩ <;>
    (rw [h] at hs; injection hs with hs; subst hs)
  · exact absurd hg.symm hne
  · exact c5_branch1 q_l q_r v_l v_r hvl hg
  · exact c5_branch2 q_l q_r v_l v_r hvr hg
  · exact c5_branch3 q_l q_r v_l v_r hvl hvr hg
  · exact c5_branch4 q_l q_r v_l v_r hvl hvr hg
  · exact c5_branch6 q_l q_r v_l v_r hvl hg
  · exact c5_branch7 q_l q_r v_l v_r hvr hg
  · exact c5_branch5a q_l q_r v_l v_r hvl hvr hg hvv
  · exact c5_branch5b q_l q_r v_l v_r hvl hvr hg hvv
  · exact c5_branch5c q_l q_r v_l v_r hvl hvr hg

/-- Witness for C5 (amended) at the valid input `(1/5, 2/5, 1, 1)` with
distinct fluxes: at `ξ = -1`, strictly below all wave speeds, the evaluator
returns `q_l = 1/5`. -/
theorem claim_c5_witness :
    f (1/5 : ℝ) 1 ≠ f (2/5 : ℝ) 1 ∧
    evalAt (exact_riemann_solution (1/5) (2/5) 1 1) (-1) = 1/5 := by
  have hsol : exact_riemann_solution (1/5) (2/5) 1 1 = .ok (branch2 (1/5) (2/5) 1 1) :=
    solve_eq2 (by norm_num [G0, f]) (by norm_num [G1, f]) (by norm_num [G2, f])
  have h := claim_c5_amended (1/5) (2/5) 1 1 (by norm_num) (by norm_num) (by norm_num)
    (by norm_num) (by norm_num) (by norm_num) (by norm_num [f]) _ hsol
  refine ⟨by norm_num [f], ?_⟩
  rw [hsol]
  apply h.1 (-1)
  have hq := qstar_dn_lt 1 (f (1/5) 1) (2/5) (by norm_num) (by norm_num [f])
  have hss : 0 < (f (2/5 : ℝ) 1 - f (1/5 : ℝ) 1) /
      (2/5 - (1 - Real.sqrt (1 - 4 * f (1/5 : ℝ) 1 / 1)) / 2) :=
    div_pos (by norm_num [f]) (by linarith)
  intro s hs
  simp only [branch2, List.mem_cons, List.not_mem_nil, or_false] at hs
  rcases hs with rfl | rfl <;> simp only [speedLo] <;> linarith

end Traffic
